import Mathlib

/-!
Verification of `rcu_cell`'s non-null cell (`src/rcu_cell_nonnull.rs`).

The embedding models the sequential semantics of `RcuCellNonNull<T>`:
 - a `Heap` of reference-counted allocations stands for the collection of
   `Arc<T>` allocations; an `Arc` handle is represented by its raw address
   (a `Nat` index into the heap), matching the source's invariant that each
   raw address in circulation accounts for exactly one reference;
 - the `LinkWrapper` collaborator (its source is not in this repository) is
   modelled from the spec's Link interface: a word holding `(addr, readers,
   busy)` with the primitives `get_ref`, `inc_ref`, `dec_ref`, `update`,
   `lock_read`, `unlock_update`; in a sequential execution every spin loop
   completes at once because `readers = 0` and `busy = false` hold at every
   quiescent point, so each primitive is modelled by its successful step;
 - each cell operation (`new`, `from`, `write`, `update`, `read`,
   `into_arc`, `arc_eq`, `ptr_eq`, `drop`, the serde adapter) is translated
   line by line from `rcu_cell_nonnull.rs`.
-/

namespace RcuVerify

/-- One reference-counted allocation: the payload while the value is alive
(`none` once destroyed) and its strong reference count. -/
structure HeapCell (T : Type) where
  val : Option T
  count : Nat
deriving DecidableEq, Repr

/-- The collection of `Arc` allocations, addressed by list index, together
with a destructor counter that records how many values have been destroyed. -/
structure Heap (T : Type) where
  cells : List (HeapCell T)
  destroyed : Nat
deriving DecidableEq, Repr

namespace Heap

variable {T : Type}

/-- The empty heap: no allocations, no destructions yet. -/
def empty : Heap T := ⟨[], 0⟩

/-- Payload currently stored at an address (`none` if unallocated or destroyed). -/
def get (h : Heap T) (a : Nat) : Option T :=
  match h.cells[a]? with
  | some c => c.val
  | none => none

/-- Strong reference count at an address (0 if unallocated). -/
def count (h : Heap T) (a : Nat) : Nat :=
  match h.cells[a]? with
  | some c => c.count
  | none => 0

/-- Replace the allocation record at an address, leaving the rest alone. -/
def setCell (h : Heap T) (a : Nat) (c : HeapCell T) : Heap T :=
  ⟨h.cells.set a c, h.destroyed⟩

end Heap

namespace Arc

variable {T : Type}

/-- `Arc::new(v)`: a fresh allocation with reference count 1; returns its
address (the handle) and the grown heap. -/
def new (h : Heap T) (v : T) : Nat × Heap T :=
  (h.cells.length, ⟨h.cells ++ [⟨some v, 1⟩], h.destroyed⟩)

/-- Modelled from the spec: `into_raw(handle) → addr` consumes the handle,
transferring its reference to the raw address; with handles represented by
their address this is the identity and leaves the heap untouched. -/
def intoRaw (a : Nat) : Nat := a

/-- Modelled from the spec: `from_raw(addr) → handle`, the inverse of
`into_raw`; it balances one `into_raw`, so the count is unchanged. -/
def fromRaw (a : Nat) : Nat := a

/-- `Arc::clone`: increment the strong count of the allocation. -/
def clone (h : Heap T) (a : Nat) : Heap T :=
  match h.cells[a]? with
  | some c => h.setCell a ⟨c.val, c.count + 1⟩
  | none => h

/-- Dropping a handle: decrement the strong count; when it reaches zero the
value is destroyed (payload cleared, destructor counter bumped). -/
def drop (h : Heap T) (a : Nat) : Heap T :=
  match h.cells[a]? with
  | some ⟨some v, n + 1⟩ =>
      if n = 0 then ⟨(h.setCell a ⟨none, 0⟩).cells, h.destroyed + 1⟩
      else h.setCell a ⟨some v, n⟩
  | _ => h

end Arc

/-- Modelled from the spec: the Link collaborator's state, one word logically
holding the published address, the in-flight reader count and the
writer-busy bit. -/
structure LinkWrapper where
  addr : Nat
  readers : Nat
  busy : Bool
deriving DecidableEq, Repr

namespace LinkWrapper

/-- Modelled from the spec: construct a Link from an initial address. -/
def new (p : Nat) : LinkWrapper := ⟨p, 0, false⟩

/-- Modelled from the spec: load the current address. -/
def get_ref (l : LinkWrapper) : Nat := l.addr

/-- Modelled from the spec: atomically increment `readers`, returning the
address observed in the same step. -/
def inc_ref (l : LinkWrapper) : Nat × LinkWrapper :=
  (l.addr, { l with readers := l.readers + 1 })

/-- Modelled from the spec: atomically decrement `readers`. -/
def dec_ref (l : LinkWrapper) : LinkWrapper :=
  { l with readers := l.readers - 1 }

/-- Modelled from the spec: unconditional publish used by `write`; spins
until `readers = 0` and `busy = false` then replaces `addr`, returning the
old address.  Sequentially the spin precondition already holds, so the
successful step is modelled. -/
def update (l : LinkWrapper) (newAddr : Nat) : Nat × LinkWrapper :=
  (l.addr, { l with addr := newAddr })

/-- Modelled from the spec: acquire the writer critical section
(`busy : false → true` once `readers = 0`), returning the snapshot address. -/
def lock_read (l : LinkWrapper) : Nat × LinkWrapper :=
  (l.addr, { l with busy := true })

/-- Modelled from the spec: store the new address and clear `busy` in one
atomic step. -/
def unlock_update (l : LinkWrapper) (newAddr : Nat) : LinkWrapper :=
  { l with addr := newAddr, busy := false }

end LinkWrapper

/-- `fn ptr_to_arc<T>(ptr) -> Arc<T> { ArcPointer::from_raw(ptr) }`. -/
def ptr_to_arc (p : Nat) : Nat := Arc.fromRaw p

/-- `struct RcuCellNonNull<T> { link: LinkWrapper<T> }`. -/
structure RcuCellNonNull where
  link : LinkWrapper
deriving DecidableEq, Repr

/-- A cell together with the heap of allocations it lives in. -/
structure CellState (T : Type) where
  heap : Heap T
  cell : RcuCellNonNull
deriving DecidableEq, Repr

namespace RcuCellNonNull

variable {T : Type}

/-- `new(data)`: `Arc::into_raw(Arc::new(data))` installed into a fresh Link. -/
def new (h : Heap T) (v : T) : CellState T :=
  let (p, h1) := Arc.new h v
  ⟨h1, ⟨LinkWrapper.new (Arc.intoRaw p)⟩⟩

/-- `impl From<Arc<T>>`: `Arc::into_raw(data)` installed into a fresh Link;
the handle's reference transfers into the cell, no copy is made. -/
def fromArc (h : Heap T) (a : Nat) : CellState T :=
  ⟨h, ⟨LinkWrapper.new (Arc.intoRaw a)⟩⟩

/-- `impl Drop`: reconstruct a handle from the current address and let it
fall, releasing the cell's reference. -/
def drop (st : CellState T) : Heap T :=
  let p := st.cell.link.get_ref
  Arc.drop st.heap (ptr_to_arc p)

/-- `into_arc(self)`: read the current address, reconstruct the handle, and
suppress the cell's drop via `ManuallyDrop`; the heap is untouched. -/
def into_arc (st : CellState T) : Nat × Heap T :=
  let p := st.cell.link.get_ref
  let ret := ptr_to_arc p
  (ret, st.heap)

/-- `write(data)` for `data` already an `Arc`: `Arc::into_raw` the new
handle, publish it via `link.update`, and wrap the returned old address back
into an owned handle. -/
def write (st : CellState T) (a : Nat) : Nat × CellState T :=
  let newPtr := Arc.intoRaw a
  let (old, link1) := st.cell.link.update newPtr
  (ptr_to_arc old, ⟨st.heap, ⟨link1⟩⟩)

/-- `write(data)` for a plain value: `Into<Arc<T>>` first allocates the
`Arc`, then the handle is written. -/
def writeVal (st : CellState T) (v : T) : Nat × CellState T :=
  let (a, h1) := Arc.new st.heap v
  write ⟨h1, st.cell⟩ a

/-- The state right after `update`'s first two lines (`lock_read` then
`ptr_to_arc`): the snapshot address, the reconstructed old handle, and the
heap at that point.  `ptr_to_arc` is `from_raw`, which does not touch the
reference count. -/
def updateAfterReconstruct (st : CellState T) : Nat × Nat × Heap T :=
  let (p, _) := st.cell.link.lock_read
  let old_value := ptr_to_arc p
  (p, old_value, st.heap)

/-- `update(f)`: lock the writer section, reconstruct the old handle from the
snapshot address, hand a clone of it to the closure, publish the address of
the closure's result, and return the old handle.  The closure is modelled as
a pure function of the payload whose argument clone is released when it
returns (as in `|x| *x + 1`); `none` signals a dereference of a destroyed
value, which never occurs for a well-formed cell. -/
def update (st : CellState T) (f : T → T) : Option (Nat × CellState T) :=
  let (p, link1) := st.cell.link.lock_read
  let old_value := ptr_to_arc p
  let h1 := Arc.clone st.heap old_value
  match h1.get old_value with
  | none => none
  | some v =>
      let h2 := Arc.drop h1 old_value
      let (newPtr, h3) := Arc.new h2 (f v)
      let link2 := link1.unlock_update (Arc.intoRaw newPtr)
      some (old_value, ⟨h3, ⟨link2⟩⟩)

/-- `read()`: `inc_ref` pins the address, a viewing handle is built in a
`ManuallyDrop` (so it is discarded without decrementing), its clone bumps the
true count, `dec_ref` unpins, and the clone is returned.  The acquire fence
has no sequential content. -/
def read (st : CellState T) : Nat × CellState T :=
  let (p, link1) := st.cell.link.inc_ref
  let v := ptr_to_arc p
  let h1 := Arc.clone st.heap v
  let link2 := link1.dec_ref
  (v, ⟨h1, ⟨link2⟩⟩)

/-- `arc_eq(&self, data)`: one load of the address, compared with the
handle's address. -/
def arc_eq (st : CellState T) (a : Nat) : Bool :=
  st.cell.link.get_ref == a

/-- `ptr_eq(this, other)`: one load of each address, compared. -/
def ptr_eq (c1 c2 : RcuCellNonNull) : Bool :=
  c1.link.get_ref == c2.link.get_ref

/-- serde `Serialize`: `self.read().serialize(serializer)` — serialize the
snapshot handle's payload with the element serializer `sT`, then the
temporary handle is dropped. -/
def serializeCell (sT : T → List Nat) (st : CellState T) :
    Option (List Nat) × CellState T :=
  let (h, st1) := read st
  (Option.map sT (st1.heap.get h), ⟨Arc.drop st1.heap h, st1.cell⟩)

/-- serde `Deserialize`: decode a `T` with the element deserializer `dT` and
construct a fresh cell around it via `new`. -/
def deserializeCell (dT : List Nat → Option T) (h : Heap T)
    (bytes : List Nat) : Option (CellState T) :=
  (dT bytes).map (fun v => new h v)

end RcuCellNonNull

/-- The value currently published by the cell, read off the heap. -/
def curVal {T : Type} (st : CellState T) : Option T :=
  st.heap.get st.cell.link.addr

/-- Well-formedness of a cell state: the published address holds a live
value and the cell's own reference is accounted for in its count. -/
def WF {T : Type} (st : CellState T) : Prop :=
  (curVal st).isSome = true ∧ 1 ≤ st.heap.count st.cell.link.addr

/-- One user-visible cell operation, for reasoning about sequences of calls. -/
inductive COp (T : Type) where
  | write (v : T)
  | upd (f : T → T)
  | readOp

/-- Run a sequence of operations, collecting the address of the handle each
call returns (`write`/`update` return the old handle, `read` the snapshot);
`none` would signal a dereference of a destroyed value inside `update`. -/
def runMods {T : Type} (st : CellState T) : List (COp T) → Option (CellState T × List Nat)
  | [] => some (st, [])
  | COp.write v :: l =>
      let s := RcuCellNonNull.writeVal st v
      (runMods s.2 l).map (fun p => (p.1, s.1 :: p.2))
  | COp.upd f :: l =>
      match RcuCellNonNull.update st f with
      | none => none
      | some s => (runMods s.2 l).map (fun p => (p.1, s.1 :: p.2))
  | COp.readOp :: l =>
      let s := RcuCellNonNull.read st
      (runMods s.2 l).map (fun p => (p.1, s.1 :: p.2))

/-- Run a sequence of plain-value writes, collecting the returned old
handles in order. -/
def runWrites {T : Type} (st : CellState T) : List T → List Nat × CellState T
  | [] => ([], st)
  | v :: vs =>
      let s := RcuCellNonNull.writeVal st v
      let r := runWrites s.2 vs
      (s.1 :: r.1, r.2)

/-- The addresses a run of `n` writes returns, starting from published
address `p` on a heap of size `len`: the current address, then each freshly
allocated one in turn. -/
def writeOutsFrom (p len : Nat) : Nat → List Nat
  | 0 => []
  | n + 1 => p :: writeOutsFrom len (len + 1) n

/-- The published address after `n` writes, starting from published address
`p` on a heap of size `len`. -/
def writeAddrFrom (p len : Nat) : Nat → Nat
  | 0 => p
  | n + 1 => len + n

/-- A freshly allocated heap record holding `v` with count 1. -/
def aliveOne {T : Type} (v : T) : HeapCell T := ⟨some v, 1⟩

/-- The record of a destroyed allocation. -/
def deadCell {T : Type} : HeapCell T := ⟨none, 0⟩

/-- Drop a list of handles in order. -/
def dropAll {T : Type} (h : Heap T) (addrs : List Nat) : Heap T :=
  addrs.foldl Arc.drop h

/-- Number of occurrences of an address in a list of handles. -/
def occCount (l : List Nat) (a : Nat) : Nat :=
  match l with
  | [] => 0
  | b :: l => (if b = a then 1 else 0) + occCount l a

/-- Number of heap records whose value is still alive. -/
def aliveCount {T : Type} : List (HeapCell T) → Nat
  | [] => 0
  | c :: l => (if c.val.isSome then 1 else 0) + aliveCount l

/-- Number of publishing operations (writes and updates) in a sequence:
each publishes exactly one fresh value. -/
def modCount {T : Type} : List (COp T) → Nat
  | [] => 0
  | COp.write _ :: l => modCount l + 1
  | COp.upd _ :: l => modCount l + 1
  | COp.readOp :: l => modCount l

/-- Spec-side chain (spec §8, property 3): the value each successive
`write`/`update`/`read` call returns, when the cell currently holds `v` —
each old equals the value installed by the immediately preceding write. -/
def specOuts {T : Type} (v : T) : List (COp T) → List T
  | [] => []
  | COp.write w :: l => v :: specOuts w l
  | COp.upd f :: l => v :: specOuts (f v) l
  | COp.readOp :: l => v :: specOuts v l

/-- Spec-side chain: the value the cell holds after a sequence of calls,
starting from `v`. -/
def specCur {T : Type} (v : T) : List (COp T) → T
  | [] => v
  | COp.write w :: l => specCur w l
  | COp.upd f :: l => specCur (f v) l
  | COp.readOp :: l => specCur v l

/-- Spec-side chain: the list of published values, in publication order,
starting from `v`. -/
def specChain {T : Type} (v : T) : List (COp T) → List T
  | [] => [v]
  | COp.write w :: l => v :: specChain w l
  | COp.upd f :: l => v :: specChain (f v) l
  | COp.readOp :: l => specChain v l

/-! ### Basic heap lemmas -/

theorem lt_length_of_getElem?_eq_some {α : Type} {l : List α} {n : Nat} {c : α}
    (h : l[n]? = some c) : n < l.length := by
  by_contra hn
  push_neg at hn
  rw [List.getElem?_len_le hn] at h
  cases h

theorem Heap.get_setCell_self {T : Type} (h : Heap T) {a : Nat} (c : HeapCell T)
    (ha : a < h.cells.length) : (h.setCell a c).get a = c.val := by
  simp [Heap.setCell, Heap.get, List.getElem?_set_eq_of_lt _ ha]

theorem Heap.get_setCell_ne {T : Type} (h : Heap T) {a b : Nat} (c : HeapCell T)
    (hab : a ≠ b) : (h.setCell a c).get b = h.get b := by
  simp [Heap.setCell, Heap.get, List.getElem?_set_ne hab]

theorem Heap.count_setCell_self {T : Type} (h : Heap T) {a : Nat} (c : HeapCell T)
    (ha : a < h.cells.length) : (h.setCell a c).count a = c.count := by
  simp [Heap.setCell, Heap.count, List.getElem?_set_eq_of_lt _ ha]

theorem Heap.count_setCell_ne {T : Type} (h : Heap T) {a b : Nat} (c : HeapCell T)
    (hab : a ≠ b) : (h.setCell a c).count b = h.count b := by
  simp [Heap.setCell, Heap.count, List.getElem?_set_ne hab]

theorem Heap.destroyed_setCell {T : Type} (h : Heap T) (a : Nat) (c : HeapCell T) :
    (h.setCell a c).destroyed = h.destroyed := rfl

/-! ### Arc allocation lemmas -/

theorem Arc.new_fst {T : Type} (h : Heap T) (v : T) :
    (Arc.new h v).1 = h.cells.length := rfl

theorem Arc.get_new_fresh {T : Type} (h : Heap T) (v : T) :
    (Arc.new h v).2.get h.cells.length = some v := by
  simp [Arc.new, Heap.get, List.getElem?_concat_length]

theorem Arc.count_new_fresh {T : Type} (h : Heap T) (v : T) :
    (Arc.new h v).2.count h.cells.length = 1 := by
  simp [Arc.new, Heap.count, List.getElem?_concat_length]

theorem Arc.get_new_lt {T : Type} (h : Heap T) (v : T) {a : Nat}
    (ha : a < h.cells.length) : (Arc.new h v).2.get a = h.get a := by
  simp [Arc.new, Heap.get, List.getElem?_append_left ha]

theorem Arc.count_new_lt {T : Type} (h : Heap T) (v : T) {a : Nat}
    (ha : a < h.cells.length) : (Arc.new h v).2.count a = h.count a := by
  simp [Arc.new, Heap.count, List.getElem?_append_left ha]

theorem Arc.destroyed_new {T : Type} (h : Heap T) (v : T) :
    (Arc.new h v).2.destroyed = h.destroyed := rfl

theorem Arc.get_new_some {T : Type} (h : Heap T) (v : T) {a : Nat} {w : T}
    (ha : h.get a = some w) : (Arc.new h v).2.get a = some w := by
  unfold Heap.get at ha
  rcases hc : h.cells[a]? with _ | c
  · rw [hc] at ha; cases ha
  · rw [Arc.get_new_lt h v (lt_length_of_getElem?_eq_some hc), Heap.get, hc]
    rw [hc] at ha; exact ha

/-! ### Arc clone lemmas -/

theorem Arc.get_clone {T : Type} (h : Heap T) (a b : Nat) :
    (Arc.clone h a).get b = h.get b := by
  unfold Arc.clone
  rcases hc : h.cells[a]? with _ | c
  · rfl
  · by_cases hab : a = b
    · subst hab
      rw [Heap.get_setCell_self h _ (lt_length_of_getElem?_eq_some hc), Heap.get, hc]
    · exact Heap.get_setCell_ne h _ hab

theorem Arc.count_clone_self {T : Type} (h : Heap T) {a : Nat}
    (ha : 1 ≤ h.count a) : (Arc.clone h a).count a = h.count a + 1 := by
  unfold Arc.clone
  rcases hc : h.cells[a]? with _ | c
  · simp [Heap.count, hc] at ha
  · rw [Heap.count_setCell_self h _ (lt_length_of_getElem?_eq_some hc), Heap.count, hc]

theorem Arc.count_clone_ne {T : Type} (h : Heap T) {a b : Nat} (hab : a ≠ b) :
    (Arc.clone h a).count b = h.count b := by
  unfold Arc.clone
  rcases hc : h.cells[a]? with _ | c
  · rfl
  · exact Heap.count_setCell_ne h _ hab

theorem Arc.destroyed_clone {T : Type} (h : Heap T) (a : Nat) :
    (Arc.clone h a).destroyed = h.destroyed := by
  unfold Arc.clone
  rcases hc : h.cells[a]? with _ | c
  · rfl
  · rfl

/-! ### Arc drop lemmas, via dispatch equations for each heap-record shape -/

theorem Arc.drop_eq_noop {T : Type} (h : Heap T) {a : Nat}
    (hcell : h.cells[a]? = none ∨ (∃ n, h.cells[a]? = some ⟨none, n⟩) ∨
      (∃ v, h.cells[a]? = some ⟨some v, 0⟩)) : Arc.drop h a = h := by
  unfold Arc.drop
  rcases hcell with hc | ⟨n, hc⟩ | ⟨v, hc⟩
  · rw [hc]
  · rcases n with _ | n <;> rw [hc]
  · rw [hc]

theorem Arc.drop_eq_last {T : Type} (h : Heap T) {a : Nat} {v : T}
    (hcell : h.cells[a]? = some ⟨some v, 1⟩) :
    Arc.drop h a = ⟨(h.setCell a ⟨none, 0⟩).cells, h.destroyed + 1⟩ := by
  unfold Arc.drop
  rw [hcell]
  rfl

theorem Arc.drop_eq_shared {T : Type} (h : Heap T) {a : Nat} {v : T} {n : Nat}
    (hcell : h.cells[a]? = some ⟨some v, n + 2⟩) :
    Arc.drop h a = h.setCell a ⟨some v, n + 1⟩ := by
  unfold Arc.drop
  rw [hcell]
  show (if n + 1 = 0 then _ else _) = _
  simp

theorem Arc.cell_of_two_le {T : Type} (h : Heap T) {a : Nat} {v : T}
    (hv : h.get a = some v) (hc : 2 ≤ h.count a) :
    ∃ n, h.cells[a]? = some ⟨some v, n + 2⟩ ∧ h.count a = n + 2 := by
  rcases hcell : h.cells[a]? with _ | ⟨w, m⟩
  · rw [Heap.get, hcell] at hv; cases hv
  · have hw : w = some v := by rw [Heap.get, hcell] at hv; exact hv
    have hm : h.count a = m := by rw [Heap.count, hcell]
    subst hw
    rcases m with _ | _ | n
    · omega
    · omega
    · refine ⟨n, ?_, ?_⟩
      · simp only [hcell]
      · omega

theorem Arc.get_drop_of_two_le {T : Type} (h : Heap T) {a : Nat} {v : T} (b : Nat)
    (hv : h.get a = some v) (hc : 2 ≤ h.count a) :
    (Arc.drop h a).get b = h.get b := by
  obtain ⟨n, hcell, _⟩ := Arc.cell_of_two_le h hv hc
  rw [Arc.drop_eq_shared h hcell]
  by_cases hab : a = b
  · subst hab
    rw [Heap.get_setCell_self h _ (lt_length_of_getElem?_eq_some hcell), hv]
  · exact Heap.get_setCell_ne h _ hab

theorem Arc.count_drop_self_of_two_le {T : Type} (h : Heap T) {a : Nat} {v : T}
    (hv : h.get a = some v) (hc : 2 ≤ h.count a) :
    (Arc.drop h a).count a = h.count a - 1 := by
  obtain ⟨n, hcell, hcnt⟩ := Arc.cell_of_two_le h hv hc
  rw [Arc.drop_eq_shared h hcell,
    Heap.count_setCell_self h _ (lt_length_of_getElem?_eq_some hcell), hcnt]
  rfl

theorem Arc.count_drop_ne {T : Type} (h : Heap T) {a b : Nat} (hab : a ≠ b) :
    (Arc.drop h a).count b = h.count b := by
  rcases hcell : h.cells[a]? with _ | ⟨_ | v, _ | n⟩
  · rw [Arc.drop_eq_noop h (Or.inl hcell)]
  · rw [Arc.drop_eq_noop h (Or.inr (Or.inl ⟨0, hcell⟩))]
  · rw [Arc.drop_eq_noop h (Or.inr (Or.inl ⟨_, hcell⟩))]
  · rw [Arc.drop_eq_noop h (Or.inr (Or.inr ⟨v, hcell⟩))]
  · rcases n with _ | m
    · rw [Arc.drop_eq_last h hcell]
      show (h.setCell a ⟨none, 0⟩).count b = h.count b
      exact Heap.count_setCell_ne h _ hab
    · rw [Arc.drop_eq_shared h hcell]
      exact Heap.count_setCell_ne h _ hab

theorem Arc.destroyed_drop_of_two_le {T : Type} (h : Heap T) {a : Nat} {v : T}
    (hv : h.get a = some v) (hc : 2 ≤ h.count a) :
    (Arc.drop h a).destroyed = h.destroyed := by
  obtain ⟨n, hcell, _⟩ := Arc.cell_of_two_le h hv hc
  rw [Arc.drop_eq_shared h hcell]
  rfl


/-! ### Heap length and liveness facts -/

theorem lt_length_of_get_eq_some {T : Type} {h : Heap T} {a : Nat} {v : T}
    (hv : h.get a = some v) : a < h.cells.length := by
  unfold Heap.get at hv
  rcases hc : h.cells[a]? with _ | c
  · rw [hc] at hv; cases hv
  · exact lt_length_of_getElem?_eq_some hc

theorem Arc.length_new {T : Type} (h : Heap T) (v : T) :
    (Arc.new h v).2.cells.length = h.cells.length + 1 := by
  simp [Arc.new]

theorem Arc.length_clone {T : Type} (h : Heap T) (a : Nat) :
    (Arc.clone h a).cells.length = h.cells.length := by
  unfold Arc.clone
  rcases hc : h.cells[a]? with _ | c
  · rfl
  · simp [Heap.setCell]

theorem Arc.length_drop {T : Type} (h : Heap T) (a : Nat) :
    (Arc.drop h a).cells.length = h.cells.length := by
  rcases hcell : h.cells[a]? with _ | ⟨_ | v, _ | n⟩
  · rw [Arc.drop_eq_noop h (Or.inl hcell)]
  · rw [Arc.drop_eq_noop h (Or.inr (Or.inl ⟨0, hcell⟩))]
  · rw [Arc.drop_eq_noop h (Or.inr (Or.inl ⟨_, hcell⟩))]
  · rw [Arc.drop_eq_noop h (Or.inr (Or.inr ⟨v, hcell⟩))]
  · rcases n with _ | m
    · rw [Arc.drop_eq_last h hcell]
      simp [Heap.setCell]
    · rw [Arc.drop_eq_shared h hcell]
      simp [Heap.setCell]

/-! ### Effect of each cell operation -/

theorem RcuCellNonNull.new_def {T : Type} (h : Heap T) (v : T) :
    RcuCellNonNull.new h v =
      ⟨(Arc.new h v).2, ⟨⟨h.cells.length, 0, false⟩⟩⟩ := rfl

theorem curVal_new {T : Type} (h : Heap T) (v : T) :
    curVal (RcuCellNonNull.new h v) = some v :=
  Arc.get_new_fresh h v

theorem count_new {T : Type} (h : Heap T) (v : T) :
    (RcuCellNonNull.new h v).heap.count
      (RcuCellNonNull.new h v).cell.link.addr = 1 :=
  Arc.count_new_fresh h v

theorem WF_new {T : Type} (h : Heap T) (v : T) :
    WF (RcuCellNonNull.new h v) := by
  constructor
  · rw [curVal_new]; rfl
  · rw [count_new]

theorem WF_fromArc {T : Type} (h : Heap T) {a : Nat} {v : T}
    (hv : h.get a = some v) (hc : 1 ≤ h.count a) :
    WF (RcuCellNonNull.fromArc h a) := by
  constructor
  · show (h.get a).isSome = true
    rw [hv]; rfl
  · exact hc

theorem RcuCellNonNull.write_def {T : Type} (st : CellState T) (a : Nat) :
    RcuCellNonNull.write st a =
      (st.cell.link.addr,
       ⟨st.heap, ⟨⟨a, st.cell.link.readers, st.cell.link.busy⟩⟩⟩) := rfl

theorem RcuCellNonNull.writeVal_def {T : Type} (st : CellState T) (v : T) :
    RcuCellNonNull.writeVal st v =
      (st.cell.link.addr,
       ⟨(Arc.new st.heap v).2,
        ⟨⟨st.heap.cells.length, st.cell.link.readers, st.cell.link.busy⟩⟩⟩) := rfl

theorem curVal_writeVal {T : Type} (st : CellState T) (v : T) :
    curVal (RcuCellNonNull.writeVal st v).2 = some v :=
  Arc.get_new_fresh st.heap v

theorem WF_writeVal {T : Type} (st : CellState T) (v : T) :
    WF (RcuCellNonNull.writeVal st v).2 := by
  constructor
  · rw [curVal_writeVal]; rfl
  · show 1 ≤ (Arc.new st.heap v).2.count st.heap.cells.length
    rw [Arc.count_new_fresh]

theorem RcuCellNonNull.read_def {T : Type} (st : CellState T) :
    RcuCellNonNull.read st =
      (st.cell.link.addr,
       ⟨Arc.clone st.heap st.cell.link.addr,
        ⟨⟨st.cell.link.addr, st.cell.link.readers + 1 - 1,
          st.cell.link.busy⟩⟩⟩) := rfl

theorem read_cell {T : Type} (st : CellState T) :
    (RcuCellNonNull.read st).2.cell = st.cell := by
  obtain ⟨h, ⟨⟨a, r, b⟩⟩⟩ := st
  simp [RcuCellNonNull.read_def]

theorem WF_read {T : Type} (st : CellState T) (hwf : WF st) :
    WF (RcuCellNonNull.read st).2 := by
  obtain ⟨hv, hc⟩ := hwf
  constructor
  · show ((Arc.clone st.heap st.cell.link.addr).get
      (RcuCellNonNull.read st).2.cell.link.addr).isSome = true
    rw [read_cell, Arc.get_clone]
    exact hv
  · show 1 ≤ (Arc.clone st.heap st.cell.link.addr).count
      (RcuCellNonNull.read st).2.cell.link.addr
    rw [read_cell, Arc.count_clone_self st.heap hc]
    omega


/-! ### Effect of `update` -/

theorem RcuCellNonNull.update_eq {T : Type} (st : CellState T) (f : T → T) {v : T}
    (hv : curVal st = some v) :
    RcuCellNonNull.update st f =
      some (st.cell.link.addr,
        ⟨(Arc.new (Arc.drop (Arc.clone st.heap st.cell.link.addr)
            st.cell.link.addr) (f v)).2,
         ⟨⟨(Arc.drop (Arc.clone st.heap st.cell.link.addr)
              st.cell.link.addr).cells.length,
           st.cell.link.readers, false⟩⟩⟩) := by
  have hmatch : (Arc.clone st.heap st.cell.link.addr).get st.cell.link.addr
      = some v := by
    rw [Arc.get_clone]; exact hv
  unfold RcuCellNonNull.update
  dsimp only [LinkWrapper.lock_read, ptr_to_arc, Arc.fromRaw]
  rw [hmatch]
  rfl

theorem RcuCellNonNull.update_spec {T : Type} (st : CellState T) (f : T → T) {v : T}
    (hv : curVal st = some v) (hc : 1 ≤ st.heap.count st.cell.link.addr) :
    ∃ st', RcuCellNonNull.update st f = some (st.cell.link.addr, st') ∧
      st'.cell.link =
        ⟨st.heap.cells.length, st.cell.link.readers, false⟩ ∧
      (∀ b w, st.heap.get b = some w → st'.heap.get b = some w) ∧
      curVal st' = some (f v) ∧
      st'.heap.count st.cell.link.addr = st.heap.count st.cell.link.addr ∧
      st'.heap.count st'.cell.link.addr = 1 ∧
      st'.heap.destroyed = st.heap.destroyed ∧
      st'.heap.cells.length = st.heap.cells.length + 1 ∧
      (∀ b, b ≠ st.cell.link.addr → b < st.heap.cells.length →
        st'.heap.count b = st.heap.count b) := by
  set a := st.cell.link.addr with ha
  set h1 := Arc.clone st.heap a with hh1
  have hv1 : h1.get a = some v := by rw [hh1, Arc.get_clone]; exact hv
  have hc1 : 2 ≤ h1.count a := by rw [hh1, Arc.count_clone_self st.heap hc]; omega
  set h2 := Arc.drop h1 a with hh2
  have hlen1 : h1.cells.length = st.heap.cells.length := Arc.length_clone st.heap a
  have hlen2 : h2.cells.length = st.heap.cells.length := by
    rw [hh2, Arc.length_drop, hlen1]
  have hget2 : ∀ b, h2.get b = h1.get b := fun b =>
    Arc.get_drop_of_two_le h1 b hv1 hc1
  refine ⟨⟨(Arc.new h2 (f v)).2,
      ⟨⟨h2.cells.length, st.cell.link.readers, false⟩⟩⟩,
    ?_, ?_, ?_, ?_, ?_, ?_, ?_, ?_, ?_⟩
  · rw [RcuCellNonNull.update_eq st f hv]
  · show LinkWrapper.mk h2.cells.length st.cell.link.readers false = _
    rw [hlen2]
  · intro b w hw
    have hw1 : h1.get b = some w := by rw [hh1, Arc.get_clone]; exact hw
    have hw2 : h2.get b = some w := by rw [hget2]; exact hw1
    exact Arc.get_new_some h2 (f v) hw2
  · show (Arc.new h2 (f v)).2.get h2.cells.length = some (f v)
    exact Arc.get_new_fresh h2 (f v)
  · have halt : a < h2.cells.length := by
      rw [hlen2]; exact lt_length_of_get_eq_some hv
    rw [Arc.count_new_lt h2 (f v) halt, hh2,
      Arc.count_drop_self_of_two_le h1 hv1 hc1, hh1,
      Arc.count_clone_self st.heap hc]
    omega
  · show (Arc.new h2 (f v)).2.count h2.cells.length = 1
    exact Arc.count_new_fresh h2 (f v)
  · rw [Arc.destroyed_new, hh2, Arc.destroyed_drop_of_two_le h1 hv1 hc1, hh1,
      Arc.destroyed_clone]
  · rw [Arc.length_new, hlen2]
  · intro b hb hblt
    have hblt2 : b < h2.cells.length := by rw [hlen2]; exact hblt
    rw [Arc.count_new_lt h2 (f v) hblt2, hh2,
      Arc.count_drop_ne _ (fun he => hb he.symm), hh1,
      Arc.count_clone_ne st.heap (fun he => hb he.symm)]

theorem WF_update {T : Type} (st : CellState T) (f : T → T) {v : T} {st' : CellState T}
    {old : Nat} (hv : curVal st = some v)
    (hc : 1 ≤ st.heap.count st.cell.link.addr)
    (hres : RcuCellNonNull.update st f = some (old, st')) : WF st' := by
  obtain ⟨st2, heq, _, _, hcur, _, hcnt, _, _, _⟩ :=
    RcuCellNonNull.update_spec st f hv hc
  rw [heq] at hres
  have hp := Option.some.inj hres
  injection hp with hx hy
  subst hy
  constructor
  · rw [hcur]; rfl
  · rw [hcnt]


/-! ### Preservation along sequences of operations -/

theorem writeVal_preserves {T : Type} (st : CellState T) (v : T) {b : Nat} {w : T}
    (hw : st.heap.get b = some w) :
    (RcuCellNonNull.writeVal st v).2.heap.get b = some w :=
  Arc.get_new_some st.heap v hw

theorem read_preserves {T : Type} (st : CellState T) {b : Nat} {w : T}
    (hw : st.heap.get b = some w) :
    (RcuCellNonNull.read st).2.heap.get b = some w := by
  show (Arc.clone st.heap st.cell.link.addr).get b = some w
  rw [Arc.get_clone]; exact hw

theorem runMods_spec {T : Type} (ops : List (COp T)) :
    ∀ (st : CellState T) (v : T), curVal st = some v →
      1 ≤ st.heap.count st.cell.link.addr →
      ∃ st' outs, runMods st ops = some (st', outs) ∧ WF st' ∧
        curVal st' = some (specCur v ops) ∧
        (∀ b w, st.heap.get b = some w → st'.heap.get b = some w) ∧
        outs.map st'.heap.get = (specOuts v ops).map some := by
  induction ops with
  | nil =>
      intro st v hv hc
      refine ⟨st, [], rfl, ⟨by rw [hv]; rfl, hc⟩, ?_, fun b w hw => hw, by
        simp [specOuts]⟩
      simp only [specCur]
      exact hv
  | cons op l ih =>
      intro st v hv hc
      cases op with
      | write w =>
          have hcnt : 1 ≤ (RcuCellNonNull.writeVal st w).2.heap.count
              (RcuCellNonNull.writeVal st w).2.cell.link.addr :=
            (WF_writeVal st w).2
          obtain ⟨st', outs, hrun, hWF, hcur, hpres, houts⟩ :=
            ih (RcuCellNonNull.writeVal st w).2 w (curVal_writeVal st w) hcnt
          refine ⟨st', (RcuCellNonNull.writeVal st w).1 :: outs, ?_, hWF, ?_, ?_, ?_⟩
          · show (runMods (RcuCellNonNull.writeVal st w).2 l).map
              (fun p => (p.1, (RcuCellNonNull.writeVal st w).1 :: p.2)) = _
            rw [hrun]
            rfl
          · simp only [specCur]
            exact hcur
          · exact fun b u hu => hpres b u (writeVal_preserves st w hu)
          · have hhead : st'.heap.get (RcuCellNonNull.writeVal st w).1 = some v :=
              hpres _ _ (writeVal_preserves st w hv)
            simp only [specOuts, List.map_cons]
            rw [hhead, houts]
      | upd f =>
          obtain ⟨st2, hequ, hlink, hpres2, hcur2, hcnto, hcntn, hdes, hlen, hfr⟩ :=
            RcuCellNonNull.update_spec st f hv hc
          obtain ⟨st', outs, hrun, hWF, hcur, hpres, houts⟩ :=
            ih st2 (f v) hcur2 (by rw [hcntn])
          refine ⟨st', st.cell.link.addr :: outs, ?_, hWF, ?_, ?_, ?_⟩
          · show (match RcuCellNonNull.update st f with
              | none => none
              | some s => (runMods s.2 l).map
                  (fun p : CellState T × List Nat => (p.1, s.1 :: p.2))) = _
            rw [hequ]
            show (runMods st2 l).map _ = _
            rw [hrun]
            rfl
          · simp only [specCur]
            exact hcur
          · exact fun b u hu => hpres b u (hpres2 b u hu)
          · have hhead : st'.heap.get st.cell.link.addr = some v :=
              hpres _ _ (hpres2 _ _ hv)
            simp only [specOuts, List.map_cons]
            rw [hhead, houts]
      | readOp =>
          have hcnt : 1 ≤ (RcuCellNonNull.read st).2.heap.count
              (RcuCellNonNull.read st).2.cell.link.addr :=
            (WF_read st ⟨by rw [hv]; rfl, hc⟩).2
          have hcv : curVal (RcuCellNonNull.read st).2 = some v := by
            show ((RcuCellNonNull.read st).2.heap.get
              (RcuCellNonNull.read st).2.cell.link.addr) = some v
            rw [read_cell]
            show (Arc.clone st.heap st.cell.link.addr).get st.cell.link.addr
              = some v
            rw [Arc.get_clone]
            exact hv
          obtain ⟨st', outs, hrun, hWF, hcur, hpres, houts⟩ :=
            ih (RcuCellNonNull.read st).2 v hcv hcnt
          refine ⟨st', (RcuCellNonNull.read st).1 :: outs, ?_, hWF, ?_, ?_, ?_⟩
          · show (runMods (RcuCellNonNull.read st).2 l).map
              (fun p => (p.1, (RcuCellNonNull.read st).1 :: p.2)) = _
            rw [hrun]
            rfl
          · simp only [specCur]
            exact hcur
          · exact fun b u hu => hpres b u (read_preserves st hu)
          · have hhead : st'.heap.get (RcuCellNonNull.read st).1 = some v :=
              hpres _ _ (read_preserves st hv)
            simp only [specOuts, List.map_cons]
            rw [hhead, houts]


/-! ### The spec-side chain -/

theorem mem_specChain_self {T : Type} (l : List (COp T)) :
    ∀ v : T, v ∈ specChain v l := by
  induction l with
  | nil => intro v; simp [specChain]
  | cons op l ih =>
      intro v
      cases op with
      | write w => simp [specChain]
      | upd f => simp [specChain]
      | readOp => simpa [specChain] using ih v

theorem specCur_mem_specChain {T : Type} (l : List (COp T)) :
    ∀ v : T, specCur v l ∈ specChain v l := by
  induction l with
  | nil => intro v; simp [specCur, specChain]
  | cons op l ih =>
      intro v
      cases op with
      | write w => simp only [specCur, specChain]; exact List.mem_cons_of_mem _ (ih w)
      | upd f => simp only [specCur, specChain]; exact List.mem_cons_of_mem _ (ih (f v))
      | readOp => simp only [specCur, specChain]; exact ih v

theorem specOuts_subset_specChain {T : Type} (l : List (COp T)) :
    ∀ v : T, ∀ w ∈ specOuts v l, w ∈ specChain v l := by
  induction l with
  | nil => intro v w hw; simp [specOuts] at hw
  | cons op l ih =>
      intro v w hw
      cases op with
      | write u =>
          simp only [specOuts, List.mem_cons] at hw
          rcases hw with rfl | hw
          · simp [specChain]
          · exact List.mem_cons_of_mem _ (ih u w hw)
      | upd f =>
          simp only [specOuts, List.mem_cons] at hw
          rcases hw with rfl | hw
          · simp [specChain]
          · exact List.mem_cons_of_mem _ (ih (f v) w hw)
      | readOp =>
          simp only [specOuts, List.mem_cons] at hw
          rcases hw with rfl | hw
          · simpa [specChain] using mem_specChain_self l w
          · simpa [specChain] using ih v w hw

/-! ### Claim theorems -/

/-- C1: for every cell and every sequence of write/update (and read) calls,
the old handle returned by each write equals the value installed by the
immediately preceding write (or the initial value for the first), and every
returned value lies in the chain of published values; concretely, for
`new(7)`, `read` yields 7, `write(8)` returns a handle to 7, and a
subsequent `read` yields 8. -/
theorem C1_write_chain :
    (∀ (T : Type) (v0 : T) (ops : List (COp T)),
      ∃ st' outs,
        runMods (RcuCellNonNull.new Heap.empty v0) ops = some (st', outs) ∧
        outs.map st'.heap.get = (specOuts v0 ops).map some ∧
        (∀ w, some w ∈ outs.map st'.heap.get → w ∈ specChain v0 ops) ∧
        (RcuCellNonNull.read st').2.heap.get (RcuCellNonNull.read st').1
          = some (specCur v0 ops) ∧
        specCur v0 ops ∈ specChain v0 ops) ∧
    (let s0 := RcuCellNonNull.new Heap.empty (7 : Nat)
     let r1 := RcuCellNonNull.read s0
     let w1 := RcuCellNonNull.writeVal r1.2 8
     let r2 := RcuCellNonNull.read w1.2
     r1.2.heap.get r1.1 = some 7 ∧ w1.2.heap.get w1.1 = some 7 ∧
       r2.2.heap.get r2.1 = some 8) := by
  constructor
  · intro T v0 ops
    obtain ⟨st', outs, hrun, hWF, hcur, hpres, houts⟩ :=
      runMods_spec ops (RcuCellNonNull.new Heap.empty v0) v0
        (curVal_new Heap.empty v0) (by rw [count_new])
    refine ⟨st', outs, hrun, houts, ?_, ?_, specCur_mem_specChain ops v0⟩
    · intro w hw
      rw [houts] at hw
      obtain ⟨u, hu, he⟩ := List.mem_map.mp hw
      cases Option.some.inj he
      exact specOuts_subset_specChain ops v0 _ hu
    · show (RcuCellNonNull.read st').2.heap.get st'.cell.link.addr
        = some (specCur v0 ops)
      exact read_preserves st' hcur
  · decide

/-- C4: a cell constructed by `new` or `from` an alive handle is well-formed,
and after every finite sequence of read/write/update operations the
published address still holds a live value and `read` returns a
dereferenceable handle. -/
theorem C4_nonnull_invariant :
    (∀ (T : Type) (h : Heap T) (v : T), WF (RcuCellNonNull.new h v)) ∧
    (∀ (T : Type) (h : Heap T) (a : Nat) (v : T),
       h.get a = some v → 1 ≤ h.count a → WF (RcuCellNonNull.fromArc h a)) ∧
    (∀ (T : Type) (st : CellState T), WF st → ∀ ops : List (COp T),
      ∃ st' outs, runMods st ops = some (st', outs) ∧
        (curVal st').isSome = true ∧
        ((RcuCellNonNull.read st').2.heap.get
            (RcuCellNonNull.read st').1).isSome = true) := by
  refine ⟨fun T h v => WF_new h v, fun T h a v hv hc => WF_fromArc h hv hc, ?_⟩
  intro T st hwf ops
  obtain ⟨hv, hc⟩ := hwf
  obtain ⟨v, hv⟩ := Option.isSome_iff_exists.mp hv
  obtain ⟨st', outs, hrun, hWF, hcur, hpres, houts⟩ := runMods_spec ops st v hv hc
  refine ⟨st', outs, hrun, by rw [hcur]; rfl, ?_⟩
  have : (RcuCellNonNull.read st').2.heap.get (RcuCellNonNull.read st').1
      = some (specCur v ops) := read_preserves st' hcur
  rw [this]
  rfl

/-- C4 witness: the invariant discharged on the concrete cell `new(3)` after
a write, an update and a read. -/
theorem C4_nonnull_invariant_witness :
    ∃ st' outs,
      runMods (RcuCellNonNull.new Heap.empty (3 : Nat))
        [COp.write 4, COp.upd Nat.succ, COp.readOp] = some (st', outs) ∧
      (curVal st').isSome = true ∧
      ((RcuCellNonNull.read st').2.heap.get
          (RcuCellNonNull.read st').1).isSome = true :=
  C4_nonnull_invariant.2.2 Nat (RcuCellNonNull.new Heap.empty 3)
    ⟨by decide, by decide⟩ [COp.write 4, COp.upd Nat.succ, COp.readOp]

/-- C7: `into_arc` consumes the cell and returns the published handle
without running the cell's drop — the heap (payloads, counts, destructor
counter) is untouched; for `new(5)` the returned handle holds 5 and
dropping it destroys the value exactly once. -/
theorem C7_into_arc :
    (∀ (T : Type) (st : CellState T),
      RcuCellNonNull.into_arc st = (st.cell.link.addr, st.heap)) ∧
    (let st := RcuCellNonNull.new Heap.empty (5 : Nat)
     let r := RcuCellNonNull.into_arc st
     r.2.get r.1 = some 5 ∧ r.2.destroyed = 0 ∧
       (Arc.drop r.2 r.1).destroyed = 1 ∧ (Arc.drop r.2 r.1).get r.1 = none) :=
  ⟨fun T st => rfl, by decide⟩

/-- Two successive reads on any cell return the same address — the
published one — and `arc_eq` accepts both returned handles. -/
theorem reads_share_address {T : Type} (st : CellState T) :
    (RcuCellNonNull.read st).1
      = (RcuCellNonNull.read (RcuCellNonNull.read st).2).1 ∧
    RcuCellNonNull.arc_eq (RcuCellNonNull.read (RcuCellNonNull.read st).2).2
      (RcuCellNonNull.read st).1 = true ∧
    RcuCellNonNull.arc_eq (RcuCellNonNull.read (RcuCellNonNull.read st).2).2
      (RcuCellNonNull.read (RcuCellNonNull.read st).2).1 = true := by
  have hc1 : (RcuCellNonNull.read st).2.cell = st.cell := read_cell st
  have hc2 : (RcuCellNonNull.read (RcuCellNonNull.read st).2).2.cell
      = (RcuCellNonNull.read st).2.cell := read_cell _
  refine ⟨?_, ?_, ?_⟩
  · show st.cell.link.addr = (RcuCellNonNull.read st).2.cell.link.addr
    rw [hc1]
  · show ((RcuCellNonNull.read (RcuCellNonNull.read st).2).2.cell.link.get_ref
      == st.cell.link.addr) = true
    rw [hc2, hc1]
    simp [LinkWrapper.get_ref]
  · show ((RcuCellNonNull.read (RcuCellNonNull.read st).2).2.cell.link.get_ref
      == (RcuCellNonNull.read st).2.cell.link.addr) = true
    rw [hc2, hc1]
    simp [LinkWrapper.get_ref]

/-- C8: `arc_eq` and `ptr_eq` are address-identity predicates — they hold
exactly when the loaded addresses coincide; for every cell `new(v)` with no
intervening writes, two successive reads return handles with one shared
address and `arc_eq` accepts both, as the `new(7)` scenario also shows
concretely. -/
theorem C8_address_identity :
    (∀ (T : Type) (st : CellState T) (a : Nat),
      RcuCellNonNull.arc_eq st a = true ↔ st.cell.link.get_ref = a) ∧
    (∀ (c1 c2 : RcuCellNonNull),
      RcuCellNonNull.ptr_eq c1 c2 = true ↔ c1.link.get_ref = c2.link.get_ref) ∧
    (∀ (T : Type) (h : Heap T) (v : T),
      (RcuCellNonNull.read (RcuCellNonNull.new h v)).1
        = (RcuCellNonNull.read
            (RcuCellNonNull.read (RcuCellNonNull.new h v)).2).1 ∧
      RcuCellNonNull.arc_eq
        (RcuCellNonNull.read
          (RcuCellNonNull.read (RcuCellNonNull.new h v)).2).2
        (RcuCellNonNull.read (RcuCellNonNull.new h v)).1 = true ∧
      RcuCellNonNull.arc_eq
        (RcuCellNonNull.read
          (RcuCellNonNull.read (RcuCellNonNull.new h v)).2).2
        (RcuCellNonNull.read
          (RcuCellNonNull.read (RcuCellNonNull.new h v)).2).1 = true) ∧
    (let s0 := RcuCellNonNull.new Heap.empty (7 : Nat)
     let r1 := RcuCellNonNull.read s0
     let r2 := RcuCellNonNull.read r1.2
     r1.1 = r2.1 ∧ RcuCellNonNull.arc_eq r2.2 r1.1 = true ∧
       RcuCellNonNull.arc_eq r2.2 r2.1 = true) := by
  refine ⟨fun T st a => ?_, fun c1 c2 => ?_,
    fun T h v => reads_share_address (RcuCellNonNull.new h v), by decide⟩
  · simp [RcuCellNonNull.arc_eq]
  · simp [RcuCellNonNull.ptr_eq]

/-- C10: constructing a cell `From` a handle and writing a handle into an
existing cell install the handle's exact address with no copy (the heap is
untouched); with a surviving clone of the handle, `arc_eq` then accepts it. -/
theorem C10_install_exact_address :
    (∀ (T : Type) (h : Heap T) (a : Nat),
      (RcuCellNonNull.fromArc h a).cell.link.addr = a ∧
      (RcuCellNonNull.fromArc h a).heap = h) ∧
    (∀ (T : Type) (st : CellState T) (a : Nat),
      (RcuCellNonNull.write st a).2.cell.link.addr = a ∧
      (RcuCellNonNull.write st a).2.heap = st.heap ∧
      (RcuCellNonNull.write st a).1 = st.cell.link.addr) ∧
    (∀ (T : Type) (h : Heap T) (a : Nat),
      RcuCellNonNull.arc_eq (RcuCellNonNull.fromArc (Arc.clone h a) a) a
        = true) ∧
    (∀ (T : Type) (st : CellState T) (a : Nat),
      RcuCellNonNull.arc_eq
        (RcuCellNonNull.write ⟨Arc.clone st.heap a, st.cell⟩ a).2 a = true) := by
  refine ⟨fun T h a => ⟨rfl, rfl⟩, fun T st a => ⟨rfl, rfl, rfl⟩,
    fun T h a => ?_, fun T st a => ?_⟩
  · simp [RcuCellNonNull.arc_eq, RcuCellNonNull.fromArc, Arc.intoRaw,
      LinkWrapper.new, LinkWrapper.get_ref]
  · simp [RcuCellNonNull.arc_eq, RcuCellNonNull.write, Arc.intoRaw,
      LinkWrapper.update, LinkWrapper.get_ref]


/-- C2: a completed `update(f)` applies `f` to the value current at the
start of the update, installs exactly the handle built from `f`'s result
(the fresh allocation the cell now points at, holding `f v` with the cell's
single reference), and returns the prior value; on `new(1)`, three
successor updates return handles carrying 1, 2, 3 and a final read
yields 4. -/
theorem C2_update_functional :
    (∀ (T : Type) (st : CellState T) (f : T → T) (v : T),
      curVal st = some v → 1 ≤ st.heap.count st.cell.link.addr →
      ∃ st', RcuCellNonNull.update st f = some (st.cell.link.addr, st') ∧
        st'.heap.get st.cell.link.addr = some v ∧
        st'.cell.link.addr = st.heap.cells.length ∧
        curVal st' = some (f v) ∧
        st'.heap.count st'.cell.link.addr = 1) ∧
    ((runMods (RcuCellNonNull.new Heap.empty (1 : Nat))
        [COp.upd Nat.succ, COp.upd Nat.succ, COp.upd Nat.succ]).map
      (fun p => (p.2.map p.1.heap.get,
        (RcuCellNonNull.read p.1).2.heap.get (RcuCellNonNull.read p.1).1))
      = some ([some 1, some 2, some 3], some 4)) := by
  constructor
  · intro T st f v hv hc
    obtain ⟨st', hequ, hlink, hpres, hcur, hcnto, hcntn, hdes, hlen, hfr⟩ :=
      RcuCellNonNull.update_spec st f hv hc
    refine ⟨st', hequ, hpres _ _ hv, ?_, hcur, hcntn⟩
    rw [hlink]
  · decide

/-- C2 witness: the general update property discharged on the concrete cell
`new(5)` with the successor closure. -/
theorem C2_update_functional_witness :
    ∃ st', RcuCellNonNull.update (RcuCellNonNull.new Heap.empty (5 : Nat))
        Nat.succ
      = some ((RcuCellNonNull.new Heap.empty (5 : Nat)).cell.link.addr, st') ∧
      st'.heap.get (RcuCellNonNull.new Heap.empty (5 : Nat)).cell.link.addr
        = some 5 ∧
      st'.cell.link.addr
        = (RcuCellNonNull.new Heap.empty (5 : Nat)).heap.cells.length ∧
      curVal st' = some 6 ∧
      st'.heap.count st'.cell.link.addr = 1 :=
  C2_update_functional.1 Nat (RcuCellNonNull.new Heap.empty 5) Nat.succ 5
    (by decide) (by decide)

/-- C3 counterexample: in `update`, the old handle is reconstructed by
`ptr_to_arc` (`from_raw`), which does not increment the reference count —
on `new(1)` the count at the snapshot address right after reconstruction is
1, not the prior count plus one as the claim states. -/
theorem C3_counterexample :
    ¬ ((RcuCellNonNull.updateAfterReconstruct
          (RcuCellNonNull.new Heap.empty (1 : Nat))).2.2.count
        (RcuCellNonNull.updateAfterReconstruct
          (RcuCellNonNull.new Heap.empty (1 : Nat))).1
      = (RcuCellNonNull.new Heap.empty (1 : Nat)).heap.count
          (RcuCellNonNull.new Heap.empty (1 : Nat)).cell.link.addr + 1) := by
  decide

/-- C3 (amended): the old handle is reconstructed from the snapshot address
without changing the reference count — it takes over the Cell's own
reference — while the increment comes from the clone handed to `f`; the
arithmetic is exactly balanced: after a completed `update` the old
address's count is unchanged (the Cell's one reference now being the
caller's returned handle), the cell's new address carries exactly one
reference (the one from `f`'s result), and nothing is destroyed. -/
theorem C3_refcount_balance :
    (∀ (T : Type) (st : CellState T),
      (RcuCellNonNull.updateAfterReconstruct st).1 = st.cell.link.addr ∧
      (RcuCellNonNull.updateAfterReconstruct st).2.1 = st.cell.link.addr ∧
      (RcuCellNonNull.updateAfterReconstruct st).2.2.count
          (RcuCellNonNull.updateAfterReconstruct st).1
        = st.heap.count st.cell.link.addr) ∧
    (∀ (T : Type) (st : CellState T) (f : T → T) (v : T),
      curVal st = some v → 1 ≤ st.heap.count st.cell.link.addr →
      ∃ st', RcuCellNonNull.update st f = some (st.cell.link.addr, st') ∧
        st'.heap.count st.cell.link.addr = st.heap.count st.cell.link.addr ∧
        st'.heap.count st'.cell.link.addr = 1 ∧
        st'.cell.link.addr ≠ st.cell.link.addr ∧
        st'.heap.destroyed = st.heap.destroyed) := by
  constructor
  · exact fun T st => ⟨rfl, rfl, rfl⟩
  · intro T st f v hv hc
    obtain ⟨st', hequ, hlink, hpres, hcur, hcnto, hcntn, hdes, hlen, hfr⟩ :=
      RcuCellNonNull.update_spec st f hv hc
    refine ⟨st', hequ, hcnto, hcntn, ?_, hdes⟩
    rw [hlink]
    have := lt_length_of_get_eq_some hv
    simp only [ne_eq]
    omega

/-- C3 witness: the amended balance discharged on the concrete cell
`new(2)` with the successor closure. -/
theorem C3_refcount_balance_witness :
    ∃ st', RcuCellNonNull.update (RcuCellNonNull.new Heap.empty (2 : Nat))
        Nat.succ
      = some ((RcuCellNonNull.new Heap.empty (2 : Nat)).cell.link.addr, st') ∧
      st'.heap.count (RcuCellNonNull.new Heap.empty (2 : Nat)).cell.link.addr
        = (RcuCellNonNull.new Heap.empty (2 : Nat)).heap.count
            (RcuCellNonNull.new Heap.empty (2 : Nat)).cell.link.addr ∧
      st'.heap.count st'.cell.link.addr = 1 ∧
      st'.cell.link.addr
        ≠ (RcuCellNonNull.new Heap.empty (2 : Nat)).cell.link.addr ∧
      st'.heap.destroyed
        = (RcuCellNonNull.new Heap.empty (2 : Nat)).heap.destroyed :=
  C3_refcount_balance.2 Nat (RcuCellNonNull.new Heap.empty 2) Nat.succ 2
    (by decide) (by decide)

/-- C6: `read` leaves the cell unchanged — same link state (the reader pin
is released), same payloads, same counts away from the published address,
same destructor counter — while the returned handle is the published
address carrying exactly one new reference, and it stays alive after the
cell itself is dropped. -/
theorem C6_read_frame :
    (∀ (T : Type) (st : CellState T),
      (RcuCellNonNull.read st).1 = st.cell.link.addr ∧
      (RcuCellNonNull.read st).2.cell = st.cell ∧
      (∀ b, (RcuCellNonNull.read st).2.heap.get b = st.heap.get b) ∧
      (∀ b, b ≠ st.cell.link.addr →
        (RcuCellNonNull.read st).2.heap.count b = st.heap.count b) ∧
      (RcuCellNonNull.read st).2.heap.destroyed = st.heap.destroyed) ∧
    (∀ (T : Type) (st : CellState T) (v : T),
      curVal st = some v → 1 ≤ st.heap.count st.cell.link.addr →
      (RcuCellNonNull.read st).2.heap.count st.cell.link.addr
        = st.heap.count st.cell.link.addr + 1 ∧
      (RcuCellNonNull.drop (RcuCellNonNull.read st).2).get
          (RcuCellNonNull.read st).1 = some v ∧
      1 ≤ (RcuCellNonNull.drop (RcuCellNonNull.read st).2).count
          (RcuCellNonNull.read st).1) := by
  constructor
  · intro T st
    refine ⟨rfl, read_cell st, fun b => Arc.get_clone st.heap _ b,
      fun b hb => Arc.count_clone_ne st.heap (fun he => hb he.symm), ?_⟩
    exact Arc.destroyed_clone st.heap _
  · intro T st v hv hc
    have h1 : (RcuCellNonNull.read st).2.heap
        = Arc.clone st.heap st.cell.link.addr := rfl
    have hgv : (Arc.clone st.heap st.cell.link.addr).get st.cell.link.addr
        = some v := by rw [Arc.get_clone]; exact hv
    have hcv : 2 ≤ (Arc.clone st.heap st.cell.link.addr).count
        st.cell.link.addr := by
      rw [Arc.count_clone_self st.heap hc]; omega
    have hdrop : RcuCellNonNull.drop (RcuCellNonNull.read st).2
        = Arc.drop (Arc.clone st.heap st.cell.link.addr) st.cell.link.addr := by
      show Arc.drop (RcuCellNonNull.read st).2.heap
        (ptr_to_arc (RcuCellNonNull.read st).2.cell.link.get_ref) = _
      rw [read_cell]
      rfl
    refine ⟨Arc.count_clone_self st.heap hc, ?_, ?_⟩
    · rw [hdrop]
      show (Arc.drop (Arc.clone st.heap st.cell.link.addr)
        st.cell.link.addr).get st.cell.link.addr = some v
      rw [Arc.get_drop_of_two_le _ _ hgv hcv]
      exact hgv
    · rw [hdrop]
      show 1 ≤ (Arc.drop (Arc.clone st.heap st.cell.link.addr)
        st.cell.link.addr).count st.cell.link.addr
      rw [Arc.count_drop_self_of_two_le _ hgv hcv,
        Arc.count_clone_self st.heap hc]
      omega

/-- C6 witness: the read frame property discharged on the concrete cell
`new(9)`. -/
theorem C6_read_frame_witness :
    (RcuCellNonNull.read (RcuCellNonNull.new Heap.empty (9 : Nat))).2.heap.count
        (RcuCellNonNull.new Heap.empty (9 : Nat)).cell.link.addr
      = (RcuCellNonNull.new Heap.empty (9 : Nat)).heap.count
          (RcuCellNonNull.new Heap.empty (9 : Nat)).cell.link.addr + 1 ∧
    (RcuCellNonNull.drop
        (RcuCellNonNull.read (RcuCellNonNull.new Heap.empty (9 : Nat))).2).get
        (RcuCellNonNull.read (RcuCellNonNull.new Heap.empty (9 : Nat))).1
      = some 9 ∧
    1 ≤ (RcuCellNonNull.drop
        (RcuCellNonNull.read (RcuCellNonNull.new Heap.empty (9 : Nat))).2).count
        (RcuCellNonNull.read (RcuCellNonNull.new Heap.empty (9 : Nat))).1 :=
  C6_read_frame.2 Nat (RcuCellNonNull.new Heap.empty 9) 9 (by decide) (by decide)

/-- C9: serializing a cell emits exactly the serialization of the value
obtained by a snapshot read (and leaves the cell as it was), and
deserializing constructs a fresh cell via `new` around the decoded value —
at a previously unallocated address, so no identity with any prior cell is
preserved; when the element codec round-trips, the round-tripped cell reads
the same value as the original. -/
theorem C9_serde :
    (∀ (T : Type) (sT : T → List Nat) (st : CellState T) (v : T),
      curVal st = some v → 1 ≤ st.heap.count st.cell.link.addr →
      (RcuCellNonNull.serializeCell sT st).1 = some (sT v) ∧
      (RcuCellNonNull.serializeCell sT st).2.cell = st.cell ∧
      (∀ b, (RcuCellNonNull.serializeCell sT st).2.heap.get b
        = st.heap.get b) ∧
      (∀ b, (RcuCellNonNull.serializeCell sT st).2.heap.count b
        = st.heap.count b) ∧
      (RcuCellNonNull.serializeCell sT st).2.heap.destroyed
        = st.heap.destroyed) ∧
    (∀ (T : Type) (dT : List Nat → Option T) (h : Heap T) (bytes : List Nat),
      RcuCellNonNull.deserializeCell dT h bytes
        = (dT bytes).map (RcuCellNonNull.new h)) ∧
    (∀ (T : Type) (sT : T → List Nat) (dT : List Nat → Option T)
       (h : Heap T) (st : CellState T) (v : T),
      curVal st = some v → dT (sT v) = some v →
      ∃ bs st2, (RcuCellNonNull.serializeCell sT st).1 = some bs ∧
        RcuCellNonNull.deserializeCell dT h bs = some st2 ∧
        curVal st2 = some v ∧
        st2.cell.link.addr = h.cells.length ∧
        h.get h.cells.length = none) := by
  have hfst : ∀ (T : Type) (sT : T → List Nat) (st : CellState T) (v : T),
      curVal st = some v →
      (RcuCellNonNull.serializeCell sT st).1 = some (sT v) := by
    intro T sT st v hv
    have hv' : st.heap.get st.cell.link.addr = some v := hv
    show Option.map sT ((Arc.clone st.heap st.cell.link.addr).get
      st.cell.link.addr) = some (sT v)
    rw [Arc.get_clone, hv']
    rfl
  refine ⟨?_, fun T dT h bytes => rfl, ?_⟩
  · intro T sT st v hv hc
    have hgv : (Arc.clone st.heap st.cell.link.addr).get st.cell.link.addr
        = some v := by rw [Arc.get_clone]; exact hv
    have hcv : 2 ≤ (Arc.clone st.heap st.cell.link.addr).count
        st.cell.link.addr := by
      rw [Arc.count_clone_self st.heap hc]; omega
    refine ⟨hfst T sT st v hv, read_cell st, ?_, ?_, ?_⟩
    · intro b
      show (Arc.drop (Arc.clone st.heap st.cell.link.addr)
        st.cell.link.addr).get b = st.heap.get b
      rw [Arc.get_drop_of_two_le _ _ hgv hcv, Arc.get_clone]
    · intro b
      show (Arc.drop (Arc.clone st.heap st.cell.link.addr)
        st.cell.link.addr).count b = st.heap.count b
      by_cases hb : b = st.cell.link.addr
      · subst hb
        rw [Arc.count_drop_self_of_two_le _ hgv hcv,
          Arc.count_clone_self st.heap hc]
        omega
      · rw [Arc.count_drop_ne _ (fun he => hb he.symm),
          Arc.count_clone_ne st.heap (fun he => hb he.symm)]
    · show (Arc.drop (Arc.clone st.heap st.cell.link.addr)
        st.cell.link.addr).destroyed = st.heap.destroyed
      rw [Arc.destroyed_drop_of_two_le _ hgv hcv, Arc.destroyed_clone]
  · intro T sT dT h st v hv hrt
    refine ⟨sT v, RcuCellNonNull.new h v, hfst T sT st v hv, ?_, ?_, rfl, ?_⟩
    · show (dT (sT v)).map (RcuCellNonNull.new h) = some (RcuCellNonNull.new h v)
      rw [hrt]
      rfl
    · exact curVal_new h v
    · show (match h.cells[h.cells.length]? with
        | some c => c.val
        | none => none) = none
      rw [List.getElem?_len_le (le_refl h.cells.length)]

/-- C9 witness: serialization and the round trip discharged on the concrete
cell `new(5)` with the singleton-list codec. -/
theorem C9_serde_witness :
    ((RcuCellNonNull.serializeCell (fun n => [n])
        (RcuCellNonNull.new Heap.empty (5 : Nat))).1 = some [5] ∧
      (∀ b, (RcuCellNonNull.serializeCell (fun n => [n])
          (RcuCellNonNull.new Heap.empty (5 : Nat))).2.heap.count b
        = (RcuCellNonNull.new Heap.empty (5 : Nat)).heap.count b)) ∧
    (∃ bs st2, (RcuCellNonNull.serializeCell (fun n => [n])
        (RcuCellNonNull.new Heap.empty (5 : Nat))).1 = some bs ∧
      RcuCellNonNull.deserializeCell (fun l => l.head?) Heap.empty bs
        = some st2 ∧
      curVal st2 = some 5 ∧
      st2.cell.link.addr = (Heap.empty : Heap Nat).cells.length ∧
      (Heap.empty : Heap Nat).get (Heap.empty : Heap Nat).cells.length
        = none) := by
  constructor
  · refine ⟨?_, ?_⟩
    · exact (C9_serde.1 Nat (fun n => [n]) (RcuCellNonNull.new Heap.empty 5) 5
        (by decide) (by decide)).1
    · exact (C9_serde.1 Nat (fun n => [n]) (RcuCellNonNull.new Heap.empty 5) 5
        (by decide) (by decide)).2.2.2.1
  · exact C9_serde.2.2 Nat (fun n => [n]) (fun l => l.head?) Heap.empty
      (RcuCellNonNull.new Heap.empty 5) 5 (by decide) (by decide)


/-! ### Drop accounting for write runs (C5) -/

theorem getElem?_append_cons {α : Type} (pre : List α) (x : α) (l : List α) :
    (pre ++ x :: l)[pre.length]? = some x := by
  induction pre with
  | nil => simp
  | cons a pre ih => simpa using ih

theorem set_append_cons {α : Type} (pre : List α) (x c : α) (l : List α) :
    (pre ++ x :: l).set pre.length c = pre ++ c :: l := by
  induction pre with
  | nil => rfl
  | cons a pre ih => simp [List.set, ih]

theorem writeAddrFrom_succ_eq (k n : Nat) : writeAddrFrom k (k + 1) n = k + n := by
  cases n with
  | zero => simp [writeAddrFrom]
  | succ m => simp [writeAddrFrom]; omega

theorem writeAddrFrom_zero_one (n : Nat) : writeAddrFrom 0 1 n = n := by
  cases n with
  | zero => rfl
  | succ m => simp [writeAddrFrom]; omega

theorem runWrites_spec {T : Type} (vs : List T) :
    ∀ (cs : List (HeapCell T)) (d p r : Nat) (b : Bool),
      runWrites ⟨⟨cs, d⟩, ⟨⟨p, r, b⟩⟩⟩ vs
        = (writeOutsFrom p cs.length vs.length,
           ⟨⟨cs ++ vs.map aliveOne, d⟩,
            ⟨⟨writeAddrFrom p cs.length vs.length, r, b⟩⟩⟩) := by
  induction vs with
  | nil =>
      intro cs d p r b
      simp [runWrites, writeOutsFrom, writeAddrFrom]
  | cons v vs ih =>
      intro cs d p r b
      have hw : RcuCellNonNull.writeVal ⟨⟨cs, d⟩, ⟨⟨p, r, b⟩⟩⟩ v
          = (p, ⟨⟨cs ++ [aliveOne v], d⟩, ⟨⟨cs.length, r, b⟩⟩⟩) := rfl
      show ((RcuCellNonNull.writeVal ⟨⟨cs, d⟩, ⟨⟨p, r, b⟩⟩⟩ v).1 ::
          (runWrites (RcuCellNonNull.writeVal ⟨⟨cs, d⟩, ⟨⟨p, r, b⟩⟩⟩ v).2 vs).1,
        (runWrites (RcuCellNonNull.writeVal ⟨⟨cs, d⟩, ⟨⟨p, r, b⟩⟩⟩ v).2 vs).2) = _
      rw [hw]
      dsimp only
      rw [ih (cs ++ [aliveOne v]) d cs.length r b]
      have hlen : (cs ++ [aliveOne v]).length = cs.length + 1 := by simp
      rw [hlen, writeAddrFrom_succ_eq]
      simp [writeOutsFrom, writeAddrFrom, List.append_assoc]

theorem dropAll_writeOuts {T : Type} (ws : List T) :
    ∀ (pre rest : List (HeapCell T)) (d : Nat),
      dropAll ⟨pre ++ (ws.map aliveOne ++ rest), d⟩
          (writeOutsFrom pre.length (pre.length + 1) ws.length)
        = ⟨pre ++ (List.replicate ws.length deadCell ++ rest), d + ws.length⟩ := by
  induction ws with
  | nil =>
      intro pre rest d
      simp [dropAll, writeOutsFrom]
  | cons w ws ih =>
      intro pre rest d
      show dropAll ⟨pre ++ (aliveOne w :: (ws.map aliveOne ++ rest)), d⟩
          (pre.length ::
            writeOutsFrom (pre.length + 1) (pre.length + 1 + 1) ws.length) = _
      have hstep : dropAll ⟨pre ++ (aliveOne w :: (ws.map aliveOne ++ rest)), d⟩
          (pre.length ::
            writeOutsFrom (pre.length + 1) (pre.length + 1 + 1) ws.length)
          = dropAll
              (Arc.drop ⟨pre ++ (aliveOne w :: (ws.map aliveOne ++ rest)), d⟩
                pre.length)
              (writeOutsFrom (pre.length + 1) (pre.length + 1 + 1) ws.length) :=
        rfl
      have hcell : (⟨pre ++ (aliveOne w :: (ws.map aliveOne ++ rest)), d⟩ :
          Heap T).cells[pre.length]? = some ⟨some w, 1⟩ :=
        getElem?_append_cons pre (aliveOne w) (ws.map aliveOne ++ rest)
      have hdrop : Arc.drop ⟨pre ++ (aliveOne w :: (ws.map aliveOne ++ rest)), d⟩
            pre.length
          = ⟨(pre ++ [deadCell]) ++ (ws.map aliveOne ++ rest), d + 1⟩ := by
        rw [Arc.drop_eq_last _ hcell]
        show (⟨(pre ++ (aliveOne w :: (ws.map aliveOne ++ rest))).set pre.length
          ⟨none, 0⟩, d + 1⟩ : Heap T) = _
        rw [set_append_cons, List.append_cons]
        rfl
      rw [hstep, hdrop]
      have hlen : (pre ++ [deadCell]).length = pre.length + 1 := by simp
      have := ih (pre ++ [(deadCell : HeapCell T)]) rest (d + 1)
      rw [hlen] at this
      rw [this]
      have hrep : (pre ++ [(deadCell : HeapCell T)]) ++
          (List.replicate ws.length deadCell ++ rest)
          = pre ++ (List.replicate (ws.length + 1) deadCell ++ rest) := by
        simp [List.replicate_succ]
      rw [hrep]
      show (⟨_, d + 1 + ws.length⟩ : Heap T) = ⟨_, d + (ws.length + 1)⟩
      have : d + 1 + ws.length = d + (ws.length + 1) := by omega
      rw [this]
      simp


theorem Heap.get_replicate_dead {T : Type} (m d a : Nat) :
    (⟨List.replicate m (deadCell : HeapCell T), d⟩ : Heap T).get a = none := by
  unfold Heap.get
  rw [List.getElem?_replicate]
  by_cases h : a < m <;> simp [h, deadCell]

theorem Heap.count_replicate_dead {T : Type} (m d a : Nat) :
    (⟨List.replicate m (deadCell : HeapCell T), d⟩ : Heap T).count a = 0 := by
  unfold Heap.count
  rw [List.getElem?_replicate]
  by_cases h : a < m <;> simp [h, deadCell]

theorem drop_run_writes {T : Type} (v0 : T) (vs : List T) :
    RcuCellNonNull.drop
      ⟨dropAll (runWrites (RcuCellNonNull.new Heap.empty v0) vs).2.heap
          (runWrites (RcuCellNonNull.new Heap.empty v0) vs).1,
        (runWrites (RcuCellNonNull.new Heap.empty v0) vs).2.cell⟩
    = ⟨List.replicate (vs.length + 1) deadCell, vs.length + 1⟩ := by
  have hnew : (RcuCellNonNull.new Heap.empty v0 : CellState T)
      = ⟨⟨[aliveOne v0], 0⟩, ⟨⟨0, 0, false⟩⟩⟩ := rfl
  have hrw := runWrites_spec vs [aliveOne v0] 0 0 0 false
  simp only [List.length_singleton] at hrw
  rw [hnew, hrw]
  dsimp only
  have hLne : (v0 :: vs) ≠ [] := by simp
  have hsplit : (v0 :: vs).dropLast ++ [(v0 :: vs).getLast hLne] = v0 :: vs :=
    List.dropLast_append_getLast hLne
  have hdllen : (v0 :: vs).dropLast.length = vs.length := by
    simp [List.length_dropLast]
  have hcells : ([aliveOne v0] : List (HeapCell T)) ++ vs.map aliveOne
      = (v0 :: vs).map aliveOne := by simp
  have hmap : ((v0 :: vs).map aliveOne : List (HeapCell T))
      = (v0 :: vs).dropLast.map aliveOne
        ++ [aliveOne ((v0 :: vs).getLast hLne)] := by
    conv_lhs => rw [← hsplit]
    simp
  have hdA := dropAll_writeOuts (v0 :: vs).dropLast []
    [aliveOne ((v0 :: vs).getLast hLne)] 0
  simp only [List.nil_append, List.length_nil, Nat.zero_add, hdllen] at hdA
  rw [hcells, hmap, hdA]
  have haddr := writeAddrFrom_zero_one vs.length
  rw [haddr]
  show Arc.drop
    ⟨List.replicate vs.length deadCell ++ [aliveOne ((v0 :: vs).getLast hLne)],
      vs.length⟩ vs.length = _
  have hrep : (List.replicate vs.length (deadCell : HeapCell T)).length
      = vs.length := List.length_replicate vs.length deadCell
  have hcell2 : ((⟨List.replicate vs.length deadCell
        ++ [aliveOne ((v0 :: vs).getLast hLne)], vs.length⟩ : Heap T)).cells[
      vs.length]? = some ⟨some ((v0 :: vs).getLast hLne), 1⟩ := by
    have h3 := getElem?_append_cons (List.replicate vs.length (deadCell : HeapCell T))
      (aliveOne ((v0 :: vs).getLast hLne)) []
    rw [hrep] at h3
    exact h3
  rw [Arc.drop_eq_last _ hcell2]
  show (⟨(List.replicate vs.length deadCell
      ++ [aliveOne ((v0 :: vs).getLast hLne)]).set vs.length deadCell,
    vs.length + 1⟩ : Heap T) = _
  have hset := set_append_cons (List.replicate vs.length (deadCell : HeapCell T))
    (aliveOne ((v0 :: vs).getLast hLne)) (deadCell : HeapCell T) []
  rw [hrep] at hset
  rw [hset, ← List.replicate_succ' vs.length (deadCell : HeapCell T)]


/-! ### Reference-count accounting over arbitrary operation sequences -/

theorem occCount_append (l1 l2 : List Nat) (a : Nat) :
    occCount (l1 ++ l2) a = occCount l1 a + occCount l2 a := by
  induction l1 with
  | nil => simp [occCount]
  | cons b l1 ih => simp [occCount, ih]; omega

theorem Heap.get_of_len_le {T : Type} (h : Heap T) {a : Nat}
    (ha : h.cells.length ≤ a) : h.get a = none := by
  unfold Heap.get
  rw [List.getElem?_len_le ha]

theorem Heap.count_of_len_le {T : Type} (h : Heap T) {a : Nat}
    (ha : h.cells.length ≤ a) : h.count a = 0 := by
  unfold Heap.count
  rw [List.getElem?_len_le ha]

theorem Heap.lt_of_count_pos {T : Type} (h : Heap T) {a : Nat}
    (ha : 1 ≤ h.count a) : a < h.cells.length := by
  by_contra hlt
  push_neg at hlt
  rw [Heap.count_of_len_le h hlt] at ha
  omega

theorem cell_of_get_count {T : Type} (h : Heap T) {a : Nat} {v : T}
    (hv : h.get a = some v) : h.cells[a]? = some ⟨some v, h.count a⟩ := by
  rcases hc : h.cells[a]? with _ | ⟨w, m⟩
  · rw [Heap.get, hc] at hv; cases hv
  · have hw : w = some v := by rw [Heap.get, hc] at hv; exact hv
    have hm : h.count a = m := by rw [Heap.count, hc]
    rw [hw, hm]

theorem aliveCount_eq_length {T : Type} :
    ∀ (cs : List (HeapCell T)) (d : Nat),
      (∀ a, a < cs.length → ((⟨cs, d⟩ : Heap T).get a).isSome = true) →
      aliveCount cs = cs.length := by
  intro cs
  induction cs with
  | nil => intro d _; rfl
  | cons c cs ih =>
      intro d hall
      have h0 : c.val.isSome = true := by
        have := hall 0 (by simp)
        simpa [Heap.get] using this
      have htail : ∀ a, a < cs.length →
          ((⟨cs, d⟩ : Heap T).get a).isSome = true := by
        intro a ha
        have := hall (a + 1) (by simpa using Nat.succ_lt_succ ha)
        simpa [Heap.get] using this
      simp [aliveCount, h0, ih d htail]
      omega

theorem aliveCount_eq_zero {T : Type} :
    ∀ (cs : List (HeapCell T)) (d : Nat),
      (∀ a, (⟨cs, d⟩ : Heap T).get a = none) →
      aliveCount cs = 0 := by
  intro cs
  induction cs with
  | nil => intro d _; rfl
  | cons c cs ih =>
      intro d hall
      have h0 : c.val = none := by
        have := hall 0
        simpa [Heap.get] using this
      have htail : ∀ a, (⟨cs, d⟩ : Heap T).get a = none := by
        intro a
        have := hall (a + 1)
        simpa [Heap.get] using this
      simp [aliveCount, h0, ih d htail]

theorem aliveCount_set_eq {T : Type} :
    ∀ (l : List (HeapCell T)) (a : Nat) (c0 c : HeapCell T),
      l[a]? = some c0 →
      aliveCount (l.set a c) + (if c0.val.isSome then 1 else 0)
        = aliveCount l + (if c.val.isSome then 1 else 0) := by
  intro l
  induction l with
  | nil => intro a c0 c h; cases h
  | cons x l ih =>
      intro a c0 c h
      cases a with
      | zero =>
          have hx : x = c0 := by simpa using h
          subst hx
          simp [aliveCount, List.set]
          omega
      | succ n =>
          have h' : l[n]? = some c0 := by simpa using h
          have := ih n c0 c h'
          simp [aliveCount, List.set]
          omega

theorem drop_conserve {T : Type} (h : Heap T) (a : Nat) :
    (Arc.drop h a).destroyed + aliveCount (Arc.drop h a).cells
      = h.destroyed + aliveCount h.cells := by
  rcases hcell : h.cells[a]? with _ | ⟨_ | v, _ | n⟩
  · rw [Arc.drop_eq_noop h (Or.inl hcell)]
  · rw [Arc.drop_eq_noop h (Or.inr (Or.inl ⟨0, hcell⟩))]
  · rw [Arc.drop_eq_noop h (Or.inr (Or.inl ⟨_, hcell⟩))]
  · rw [Arc.drop_eq_noop h (Or.inr (Or.inr ⟨v, hcell⟩))]
  · rcases n with _ | m
    · rw [Arc.drop_eq_last h hcell]
      have := aliveCount_set_eq h.cells a ⟨some v, 1⟩ ⟨none, 0⟩ hcell
      show h.destroyed + 1 + aliveCount (h.cells.set a ⟨none, 0⟩)
        = h.destroyed + aliveCount h.cells
      simp at this
      omega
    · rw [Arc.drop_eq_shared h hcell]
      have := aliveCount_set_eq h.cells a ⟨some v, m + 2⟩ ⟨some v, m + 1⟩ hcell
      show h.destroyed + aliveCount (h.cells.set a ⟨some v, m + 1⟩)
        = h.destroyed + aliveCount h.cells
      simp at this
      omega

theorem dropAll_conserve {T : Type} (pending : List Nat) :
    ∀ h : Heap T,
      (dropAll h pending).destroyed + aliveCount (dropAll h pending).cells
        = h.destroyed + aliveCount h.cells := by
  induction pending with
  | nil => intro h; rfl
  | cons p pending ih =>
      intro h
      show (dropAll (Arc.drop h p) pending).destroyed
          + aliveCount (dropAll (Arc.drop h p) pending).cells = _
      rw [ih (Arc.drop h p), drop_conserve]

theorem occCount_snoc (acc : List Nat) (p a : Nat) :
    occCount (acc ++ [p]) a = occCount acc a + (if p = a then 1 else 0) := by
  rw [occCount_append]
  simp [occCount]

theorem runModsAccount {T : Type} (ops : List (COp T)) :
    ∀ (st : CellState T) (acc : List Nat),
      (∀ a, st.heap.count a
          = occCount acc a + (if a = st.cell.link.addr then 1 else 0)) →
      (∀ a, a < st.heap.cells.length → (st.heap.get a).isSome = true) →
      st.heap.destroyed = 0 →
      (∀ a, a < st.heap.cells.length → 1 ≤ st.heap.count a) →
      ∃ st' outs, runMods st ops = some (st', outs) ∧
        (∀ a, st'.heap.count a
            = occCount (acc ++ outs) a
              + (if a = st'.cell.link.addr then 1 else 0)) ∧
        (∀ a, a < st'.heap.cells.length → (st'.heap.get a).isSome = true) ∧
        st'.heap.destroyed = 0 ∧
        (∀ a, a < st'.heap.cells.length → 1 ≤ st'.heap.count a) ∧
        st'.heap.cells.length = st.heap.cells.length + modCount ops := by
  induction ops with
  | nil =>
      intro st acc hI1 hI2 hI3 hI5
      refine ⟨st, [], rfl, ?_, hI2, hI3, hI5, by simp [modCount]⟩
      intro a
      rw [List.append_nil]
      exact hI1 a
  | cons op l ih =>
      intro st acc hI1 hI2 hI3 hI5
      have hcp : 1 ≤ st.heap.count st.cell.link.addr := by
        rw [hI1 st.cell.link.addr, if_pos rfl]
        omega
      have hplt : st.cell.link.addr < st.heap.cells.length :=
        Heap.lt_of_count_pos st.heap hcp
      have hocc0 : ∀ a, st.heap.cells.length ≤ a → occCount acc a = 0 := by
        intro a ha
        by_contra h0
        have h1 : 1 ≤ occCount acc a := Nat.one_le_iff_ne_zero.mpr h0
        have h2 : 1 ≤ st.heap.count a := by
          rw [hI1 a]
          exact le_trans h1 (Nat.le_add_right _ _)
        have := Heap.lt_of_count_pos st.heap h2
        omega
      cases op with
      | write w =>
          set p := st.cell.link.addr with hp
          set n := st.heap.cells.length with hn
          have hst1 : (RcuCellNonNull.writeVal st w).2
              = ⟨(Arc.new st.heap w).2,
                 ⟨⟨n, st.cell.link.readers, st.cell.link.busy⟩⟩⟩ := rfl
          have hJ1 : ∀ a, (Arc.new st.heap w).2.count a
              = occCount (acc ++ [p]) a + (if a = n then 1 else 0) := by
            intro a
            rw [occCount_snoc]
            rcases Nat.lt_trichotomy a n with hlt | heq | hgt
            · rw [Arc.count_new_lt st.heap w hlt, hI1 a,
                if_neg (show ¬ a = n by omega)]
              by_cases hap : a = p
              · rw [if_pos hap, if_pos hap.symm]
              · rw [if_neg hap, if_neg (fun he => hap he.symm)]
            · subst heq
              have hfresh : (Arc.new st.heap w).2.count n = 1 := by
                rw [hn]
                exact Arc.count_new_fresh st.heap w
              rw [hfresh, if_pos rfl, hocc0 n le_rfl,
                if_neg (show ¬ p = n by omega)]
            · have hlen : (Arc.new st.heap w).2.cells.length ≤ a := by
                rw [Arc.length_new]
                omega
              rw [Heap.count_of_len_le _ hlen, hocc0 a (by omega),
                if_neg (show ¬ p = a by omega), if_neg (show ¬ a = n by omega)]
          have hJ2 : ∀ a, a < (Arc.new st.heap w).2.cells.length →
              ((Arc.new st.heap w).2.get a).isSome = true := by
            intro a ha
            rw [Arc.length_new] at ha
            rcases Nat.lt_trichotomy a n with hlt | heq | hgt
            · rw [Arc.get_new_lt st.heap w hlt]
              exact hI2 a hlt
            · subst heq
              have hfresh : (Arc.new st.heap w).2.get n = some w := by
                rw [hn]
                exact Arc.get_new_fresh st.heap w
              rw [hfresh]
              rfl
            · omega
          have hJ5 : ∀ a, a < (Arc.new st.heap w).2.cells.length →
              1 ≤ (Arc.new st.heap w).2.count a := by
            intro a ha
            rw [Arc.length_new] at ha
            rcases Nat.lt_trichotomy a n with hlt | heq | hgt
            · rw [Arc.count_new_lt st.heap w hlt]
              exact hI5 a hlt
            · subst heq
              have hfresh : (Arc.new st.heap w).2.count n = 1 := by
                rw [hn]
                exact Arc.count_new_fresh st.heap w
              rw [hfresh]
            · omega
          obtain ⟨st', outs, hrun, hK1, hK2, hK3, hK5, hK4⟩ :=
            ih (RcuCellNonNull.writeVal st w).2 (acc ++ [p])
              (by rw [hst1]; exact hJ1) (by rw [hst1]; exact hJ2)
              (by rw [hst1]; exact hI3) (by rw [hst1]; exact hJ5)
          refine ⟨st', p :: outs, ?_, ?_, hK2, hK3, hK5, ?_⟩
          · show (runMods (RcuCellNonNull.writeVal st w).2 l).map
              (fun q => (q.1, (RcuCellNonNull.writeVal st w).1 :: q.2)) = _
            rw [hrun]
            rfl
          · intro a
            rw [List.append_cons]
            exact hK1 a
          · rw [hK4, hst1]
            show (Arc.new st.heap w).2.cells.length + modCount l = _
            rw [Arc.length_new]
            show n + 1 + modCount l = n + modCount (COp.write w :: l)
            simp [modCount]
            omega
      | readOp =>
          set p := st.cell.link.addr with hp
          have hst1 : (RcuCellNonNull.read st).2
              = ⟨Arc.clone st.heap p,
                 ⟨⟨p, st.cell.link.readers + 1 - 1, st.cell.link.busy⟩⟩⟩ := rfl
          have hJ1 : ∀ a, (Arc.clone st.heap p).count a
              = occCount (acc ++ [p]) a + (if a = p then 1 else 0) := by
            intro a
            rw [occCount_snoc]
            by_cases hap : a = p
            · subst hap
              rw [Arc.count_clone_self st.heap hcp, hI1 p, if_pos rfl]
            · rw [Arc.count_clone_ne st.heap (fun he => hap he.symm), hI1 a,
                if_neg hap, if_neg (fun he => hap he.symm)]
          have hJ2 : ∀ a, a < (Arc.clone st.heap p).cells.length →
              ((Arc.clone st.heap p).get a).isSome = true := by
            intro a ha
            rw [Arc.length_clone] at ha
            rw [Arc.get_clone]
            exact hI2 a ha
          have hJ3 : (Arc.clone st.heap p).destroyed = 0 := by
            rw [Arc.destroyed_clone]
            exact hI3
          have hJ5 : ∀ a, a < (Arc.clone st.heap p).cells.length →
              1 ≤ (Arc.clone st.heap p).count a := by
            intro a ha
            rw [Arc.length_clone] at ha
            by_cases hap : a = p
            · subst hap
              rw [Arc.count_clone_self st.heap hcp]
              omega
            · rw [Arc.count_clone_ne st.heap (fun he => hap he.symm)]
              exact hI5 a ha
          obtain ⟨st', outs, hrun, hK1, hK2, hK3, hK5, hK4⟩ :=
            ih (RcuCellNonNull.read st).2 (acc ++ [p])
              (by rw [hst1]; exact hJ1) (by rw [hst1]; exact hJ2)
              (by rw [hst1]; exact hJ3) (by rw [hst1]; exact hJ5)
          refine ⟨st', p :: outs, ?_, ?_, hK2, hK3, hK5, ?_⟩
          · show (runMods (RcuCellNonNull.read st).2 l).map
              (fun q => (q.1, (RcuCellNonNull.read st).1 :: q.2)) = _
            rw [hrun]
            rfl
          · intro a
            rw [List.append_cons]
            exact hK1 a
          · rw [hK4, hst1]
            show (Arc.clone st.heap p).cells.length + modCount l = _
            rw [Arc.length_clone]
            simp [modCount]
      | upd f =>
          set p := st.cell.link.addr with hp
          set n := st.heap.cells.length with hn
          have hsome : (st.heap.get p).isSome = true := hI2 p hplt
          obtain ⟨v, hv⟩ := Option.isSome_iff_exists.mp hsome
          have hv' : curVal st = some v := hv
          obtain ⟨st2, hequ, hlink, hpres2, hcur2, hcnto, hcntn, hdes2,
              hlen2, hfr⟩ := RcuCellNonNull.update_spec st f hv' hcp
          have haddr2 : st2.cell.link.addr = n := by rw [hlink]
          have hJ1 : ∀ a, st2.heap.count a
              = occCount (acc ++ [p]) a + (if a = n then 1 else 0) := by
            intro a
            rw [occCount_snoc]
            rcases Nat.lt_trichotomy a n with hlt | heq | hgt
            · rw [if_neg (show ¬ a = n by omega)]
              by_cases hap : a = p
              · rw [hap, hcnto, hI1 p, if_pos rfl]
              · rw [hfr a hap hlt, hI1 a, if_neg hap,
                  if_neg (fun he => hap he.symm)]
            · subst heq
              have hcnt2 : st2.heap.count n = 1 := by
                rw [← haddr2]
                exact hcntn
              rw [hcnt2, if_pos rfl, hocc0 n le_rfl,
                if_neg (show ¬ p = n by omega)]
            · have hlen : st2.heap.cells.length ≤ a := by omega
              rw [Heap.count_of_len_le _ hlen, hocc0 a (by omega),
                if_neg (show ¬ p = a by omega), if_neg (show ¬ a = n by omega)]
          have hJ2 : ∀ a, a < st2.heap.cells.length →
              (st2.heap.get a).isSome = true := by
            intro a ha
            rw [hlen2] at ha
            rcases Nat.lt_trichotomy a n with hlt | heq | hgt
            · obtain ⟨w, hw⟩ := Option.isSome_iff_exists.mp (hI2 a hlt)
              rw [hpres2 a w hw]
              rfl
            · subst heq
              have hcv : st2.heap.get n = some (f v) := by
                rw [← haddr2]
                exact hcur2
              rw [hcv]
              rfl
            · omega
          have hJ5 : ∀ a, a < st2.heap.cells.length →
              1 ≤ st2.heap.count a := by
            intro a ha
            rw [hlen2] at ha
            rcases Nat.lt_trichotomy a n with hlt | heq | hgt
            · by_cases hap : a = p
              · rw [hap, hcnto]
                exact hcp
              · rw [hfr a hap hlt]
                exact hI5 a hlt
            · subst heq
              have hcnt2 : st2.heap.count n = 1 := by
                rw [← haddr2]
                exact hcntn
              rw [hcnt2]
            · omega
          obtain ⟨st', outs, hrun, hK1, hK2, hK3, hK5, hK4⟩ :=
            ih st2 (acc ++ [p])
              (by intro a; rw [haddr2]; exact hJ1 a) hJ2
              (by rw [hdes2]; exact hI3) hJ5
          refine ⟨st', p :: outs, ?_, ?_, hK2, hK3, hK5, ?_⟩
          · show (match RcuCellNonNull.update st f with
              | none => none
              | some s => (runMods s.2 l).map
                  (fun q : CellState T × List Nat => (q.1, s.1 :: q.2))) = _
            rw [hequ]
            show (runMods st2 l).map _ = _
            rw [hrun]
            rfl
          · intro a
            rw [List.append_cons]
            exact hK1 a
          · rw [hK4, hlen2]
            show n + 1 + modCount l = n + modCount (COp.upd f :: l)
            simp [modCount]
            omega

theorem Heap.get_mk_cells {T : Type} (h2 : Heap T) (d a : Nat) :
    (⟨h2.cells, d⟩ : Heap T).get a = h2.get a := rfl

theorem Heap.count_mk_cells {T : Type} (h2 : Heap T) (d a : Nat) :
    (⟨h2.cells, d⟩ : Heap T).count a = h2.count a := rfl

theorem dropPhase_dead {T : Type} :
    ∀ (pending : List Nat) (h : Heap T) (cur : Nat),
      (∀ a, h.count a = occCount pending a + (if a = cur then 1 else 0)) →
      (∀ a, 1 ≤ occCount pending a + (if a = cur then 1 else 0) →
        (h.get a).isSome = true) →
      (∀ a, occCount pending a + (if a = cur then 1 else 0) = 0 →
        h.get a = none) →
      (∀ a, (Arc.drop (dropAll h pending) cur).get a = none) ∧
      (∀ a, (Arc.drop (dropAll h pending) cur).count a = 0) := by
  intro pending
  induction pending with
  | nil =>
      intro h cur hD1 hD2 hD3
      have hk : h.count cur = 1 := by
        rw [hD1 cur, if_pos rfl]
        simp [occCount]
      have hs : (h.get cur).isSome = true := by
        refine hD2 cur ?_
        rw [if_pos rfl]
        omega
      obtain ⟨v, hv⟩ := Option.isSome_iff_exists.mp hs
      have hcell : h.cells[cur]? = some ⟨some v, 1⟩ := by
        have hcc := cell_of_get_count h hv
        rw [hk] at hcc
        exact hcc
      have hclt : cur < h.cells.length := lt_length_of_getElem?_eq_some hcell
      show (∀ a, (Arc.drop h cur).get a = none) ∧
        (∀ a, (Arc.drop h cur).count a = 0)
      rw [Arc.drop_eq_last h hcell]
      constructor
      · intro a
        rw [Heap.get_mk_cells]
        by_cases hac : a = cur
        · subst hac
          rw [Heap.get_setCell_self h _ hclt]
        · rw [Heap.get_setCell_ne h _ (fun he => hac he.symm)]
          refine hD3 a ?_
          rw [if_neg hac]
          simp [occCount]
      · intro a
        rw [Heap.count_mk_cells]
        by_cases hac : a = cur
        · subst hac
          rw [Heap.count_setCell_self h _ hclt]
        · rw [Heap.count_setCell_ne h _ (fun he => hac he.symm), hD1 a,
            if_neg hac]
          simp [occCount]
  | cons p pending ih =>
      intro h cur hD1 hD2 hD3
      have hocc_cons_self : occCount (p :: pending) p
          = occCount pending p + 1 := by
        simp [occCount]
        omega
      have hocc_cons_ne : ∀ a, a ≠ p →
          occCount (p :: pending) a = occCount pending a := by
        intro a ha
        have hne : ¬ p = a := fun he => ha he.symm
        simp [occCount, hne]
      have hs : (h.get p).isSome = true := by
        refine hD2 p ?_
        rw [hocc_cons_self]
        omega
      obtain ⟨v, hv⟩ := Option.isSome_iff_exists.mp hs
      have hcnt : h.count p
          = occCount pending p + (if p = cur then 1 else 0) + 1 := by
        rw [hD1 p, hocc_cons_self]
        omega
      have hstep : dropAll h (p :: pending) = dropAll (Arc.drop h p) pending :=
        rfl
      rw [hstep]
      rcases Nat.eq_zero_or_pos (occCount pending p + (if p = cur then 1 else 0))
        with hz | hpos
      · have hcell : h.cells[p]? = some ⟨some v, 1⟩ := by
          have hcc := cell_of_get_count h hv
          rw [hcnt, hz] at hcc
          exact hcc
        have hplt : p < h.cells.length := lt_length_of_getElem?_eq_some hcell
        rw [Arc.drop_eq_last h hcell]
        refine ih _ cur ?_ ?_ ?_
        · intro a
          rw [Heap.count_mk_cells]
          by_cases hap : a = p
          · subst hap
            rw [Heap.count_setCell_self h _ hplt]
            show 0 = occCount pending a + (if a = cur then 1 else 0)
            omega
          · rw [Heap.count_setCell_ne h _ (fun he => hap he.symm), hD1 a,
              hocc_cons_ne a hap]
        · intro a ha
          rw [Heap.get_mk_cells]
          have hap : a ≠ p := by
            intro he
            subst he
            omega
          rw [Heap.get_setCell_ne h _ (fun he => hap he.symm)]
          refine hD2 a ?_
          rw [hocc_cons_ne a hap]
          exact ha
        · intro a ha
          rw [Heap.get_mk_cells]
          by_cases hap : a = p
          · subst hap
            rw [Heap.get_setCell_self h _ hplt]
          · rw [Heap.get_setCell_ne h _ (fun he => hap he.symm)]
            refine hD3 a ?_
            rw [hocc_cons_ne a hap]
            exact ha
      · obtain ⟨m, hm⟩ : ∃ m,
            occCount pending p + (if p = cur then 1 else 0) = m + 1 :=
          ⟨_, (Nat.succ_pred_eq_of_pos hpos).symm⟩
        have hcell : h.cells[p]? = some ⟨some v, m + 2⟩ := by
          have hcc := cell_of_get_count h hv
          rw [hcnt, hm] at hcc
          exact hcc
        have hplt : p < h.cells.length := lt_length_of_getElem?_eq_some hcell
        rw [Arc.drop_eq_shared h hcell]
        refine ih _ cur ?_ ?_ ?_
        · intro a
          by_cases hap : a = p
          · subst hap
            rw [Heap.count_setCell_self h _ hplt, hm]
          · rw [Heap.count_setCell_ne h _ (fun he => hap he.symm), hD1 a,
              hocc_cons_ne a hap]
        · intro a ha
          by_cases hap : a = p
          · subst hap
            rw [Heap.get_setCell_self h _ hplt]
            rfl
          · rw [Heap.get_setCell_ne h _ (fun he => hap he.symm)]
            refine hD2 a ?_
            rw [hocc_cons_ne a hap]
            exact ha
        · intro a ha
          have hap : a ≠ p := by
            intro he
            subst he
            omega
          rw [Heap.get_setCell_ne h _ (fun he => hap he.symm)]
          refine hD3 a ?_
          rw [hocc_cons_ne a hap]
          exact ha

/-- C5: for every sequence of read/write/update operations from `new`, once
every handle the operations returned has been dropped, dropping the cell
destroys every published value exactly once: the destructor counter equals
the number of published values (one per write/update plus the initial one)
and every address is dead with reference count zero; in the scenario
`new(V1)`, `write(V2)`, `write(V3)`, drop the two returned handles, drop
the cell, exactly 3 destructions occur. -/
theorem C5_drop_exactly_once :
    (∀ (T : Type) (v0 : T) (ops : List (COp T)),
      ∃ st' outs, runMods (RcuCellNonNull.new Heap.empty v0) ops
          = some (st', outs) ∧
        st'.heap.cells.length = modCount ops + 1 ∧
        (RcuCellNonNull.drop ⟨dropAll st'.heap outs, st'.cell⟩).destroyed
          = modCount ops + 1 ∧
        (∀ a, (RcuCellNonNull.drop ⟨dropAll st'.heap outs, st'.cell⟩).get a
          = none) ∧
        (∀ a, (RcuCellNonNull.drop ⟨dropAll st'.heap outs, st'.cell⟩).count a
          = 0)) ∧
    ((runMods (RcuCellNonNull.new Heap.empty (1 : Nat))
        [COp.write 2, COp.write 3]).map
      (fun q => (RcuCellNonNull.drop
        ⟨dropAll q.1.heap q.2, q.1.cell⟩).destroyed) = some 3) := by
  constructor
  · intro T v0 ops
    have hI1 : ∀ a, (RcuCellNonNull.new Heap.empty v0).heap.count a
        = occCount [] a
          + (if a = (RcuCellNonNull.new Heap.empty v0).cell.link.addr
             then 1 else 0) := by
      intro a
      cases a with
      | zero => rfl
      | succ m =>
          have hc0 : (RcuCellNonNull.new Heap.empty v0).heap.count (m + 1)
              = 0 :=
            Heap.count_of_len_le _ (show 1 ≤ m + 1 by omega)
          rw [hc0]
          have hne : ¬ m + 1
              = (RcuCellNonNull.new Heap.empty v0).cell.link.addr := by
            show ¬ m + 1 = 0
            omega
          rw [if_neg hne]
          rfl
    have hI2 : ∀ a, a < (RcuCellNonNull.new Heap.empty v0).heap.cells.length →
        ((RcuCellNonNull.new Heap.empty v0).heap.get a).isSome = true := by
      intro a ha
      cases a with
      | zero => rfl
      | succ m =>
          have : m + 1 < 1 := ha
          omega
    have hI5 : ∀ a, a < (RcuCellNonNull.new Heap.empty v0).heap.cells.length →
        1 ≤ (RcuCellNonNull.new Heap.empty v0).heap.count a := by
      intro a ha
      cases a with
      | zero => show 1 ≤ 1; omega
      | succ m =>
          have : m + 1 < 1 := ha
          omega
    obtain ⟨st', outs, hrun, hK1, hK2, hK3, hK5, hK4⟩ :=
      runModsAccount ops (RcuCellNonNull.new Heap.empty v0) [] hI1 hI2 rfl hI5
    have hlen : st'.heap.cells.length = modCount ops + 1 := by
      rw [hK4]
      show 1 + modCount ops = modCount ops + 1
      omega
    have hK1' : ∀ a, st'.heap.count a
        = occCount outs a + (if a = st'.cell.link.addr then 1 else 0) := by
      intro a
      have := hK1 a
      rw [List.nil_append] at this
      exact this
    have hD2 : ∀ a, 1 ≤ occCount outs a
        + (if a = st'.cell.link.addr then 1 else 0) →
        (st'.heap.get a).isSome = true := by
      intro a ha
      have hcnt : 1 ≤ st'.heap.count a := by
        rw [hK1' a]
        exact ha
      exact hK2 a (Heap.lt_of_count_pos st'.heap hcnt)
    have hD3 : ∀ a, occCount outs a
        + (if a = st'.cell.link.addr then 1 else 0) = 0 →
        st'.heap.get a = none := by
      intro a ha
      have hcnt : st'.heap.count a = 0 := by
        rw [hK1' a, ha]
      by_cases hlt : a < st'.heap.cells.length
      · have := hK5 a hlt
        omega
      · push_neg at hlt
        exact Heap.get_of_len_le st'.heap hlt
    obtain ⟨hdead, hzero⟩ :=
      dropPhase_dead outs st'.heap st'.cell.link.addr hK1' hD2 hD3
    have hfinal : RcuCellNonNull.drop ⟨dropAll st'.heap outs, st'.cell⟩
        = Arc.drop (dropAll st'.heap outs) st'.cell.link.addr := rfl
    refine ⟨st', outs, hrun, hlen, ?_, ?_, ?_⟩
    · have hcons1 := dropAll_conserve outs st'.heap
      have hcons2 := drop_conserve (dropAll st'.heap outs) st'.cell.link.addr
      have halive : aliveCount st'.heap.cells = st'.heap.cells.length :=
        aliveCount_eq_length st'.heap.cells st'.heap.destroyed
          (fun a ha => hK2 a ha)
      have hdead0 : aliveCount (Arc.drop (dropAll st'.heap outs)
          st'.cell.link.addr).cells = 0 :=
        aliveCount_eq_zero _ (Arc.drop (dropAll st'.heap outs)
            st'.cell.link.addr).destroyed
          (fun a => hdead a)
      rw [hfinal]
      rw [hdead0] at hcons2
      rw [halive, hK3] at hcons1
      omega
    · intro a
      rw [hfinal]
      exact hdead a
    · intro a
      rw [hfinal]
      exact hzero a
  · decide

end RcuVerify
